import Mathlib

/-!
Verification of the CDIPpy multi-source buoy time-series engine.

This file shallowly embeds the parts of the `cdippy` package that the
claims concern:

* `cdippy/utils.py`        : the `Timespan` class.
* `cdippy/cdipnc.py`       : `CDIPnc.get_request` (time-window slicing),
  `CDIPnc.__get_indices`, `CDIPnc.make_pub_mask`, `CDIPnc.get_var_prefix`,
  and `Archive.get_request` (the xyz pseudo-time read path).
* `cdippy/stndata.py`      : `StnData.__aggregate_dicts`,
  `StnData.remove_duplicates`, `StnData.__merge_xyz_request`, and the
  nearest-index search inside `StnData.get_target_timespan`.
* `cdippy/spectra.py`      : `Spectrum.redistribute_sp` and the named band
  layouts (`Spectrum_64band`, `Spectrum_9band`, `Spectrum_100band`,
  `Spectrum_128band`, `Spectrum_custom`).

Modelling conventions:

* Python floats are modelled as real numbers (`ℝ`) where trigonometry is
  involved (the spectral redistributor), and as rationals (`ℚ`) on the
  purely arithmetical read paths, so that witnesses can be evaluated.
* `numpy` masked arrays are modelled by their data part (`List`); the
  quality masks that the code manipulates explicitly are modelled as
  `List Bool` (True = excluded), exactly as `make_pub_mask` builds them.
* Python dictionaries of arrays are modelled as association lists from
  variable names to values that are either 1-dimensional or
  2-dimensional arrays.
* Python `bisect_left` / `bisect_right` are standard-library functions
  (not repository code); they are modelled by their documented contract
  on sorted arrays: the left (resp. right) insertion point.
* A Python `UnboundLocalError` (reading a local variable on a path where
  it was never assigned) is modelled with `Except`.
-/

namespace CDIP

/-- Model of `CDIPnc.get_var_prefix` (cdipnc.py): the longest leading run
of non-uppercase characters of a variable name, e.g. "wave" for "waveHs". -/
def getVarPref (s : String) : String :=
  ⟨s.data.takeWhile (fun c => !c.isUpper)⟩

/-- Model of the `Timespan` class (utils.py): a (start, end) pair. -/
structure Timespan (α : Type) where
  start_dt : α
  end_dt : α

/-- Model of `Timespan.overlap` (utils.py lines 87-92): returns True iff
`self.start_dt <= tspan.end_dt and self.end_dt >= tspan.start_dt`. -/
def Timespan.overlap {α : Type} [LinearOrder α] (self tspan : Timespan α) : Bool :=
  decide (self.start_dt ≤ tspan.end_dt ∧ self.end_dt ≥ tspan.start_dt)

/-- Contract model of Python `bisect.bisect_left(a, x)` for sorted `a`:
the number of elements strictly below `x`, i.e. the left insertion point. -/
def bisectLeft {α : Type} [LinearOrder α] (a : List α) (x : α) : Nat :=
  (a.takeWhile (fun t => decide (t < x))).length

/-- Contract model of Python `bisect.bisect_right(a, x, lo)` for sorted `a`:
the right insertion point, searching from position `lo` on. -/
def bisectRightFrom {α : Type} [LinearOrder α] (a : List α) (x : α) (lo : Nat) : Nat :=
  lo + ((a.drop lo).takeWhile (fun t => decide (t ≤ x))).length

/-- Model of Python `round(q, 0)` (banker's rounding, ties to even),
as used by `Archive.__get_idx_from_timestamp` (cdipnc.py). -/
def pyRound (q : ℚ) : ℤ :=
  let f := ⌊q⌋
  let frac := q - f
  if frac < 1/2 then f
  else if 1/2 < frac then f + 1
  else if Even f then f else f + 1

/-- Python slice `l[a:b]` for `0 ≤ a` and `0 ≤ b` (drop `a`, stop at `b`). -/
def pySlice {α : Type} (l : List α) (a b : Nat) : List α :=
  (l.take b).drop a

end CDIP

namespace CDIP

/-- Model of `CDIPnc.make_pub_mask` (cdipnc.py lines 294-325). The flag
array has already been sliced to the requested index range by the caller;
this models the mask construction on it. `none` models Python `None`. -/
def makePubMask (ancName : String) (flags : List ℤ) (pubSet : String) :
    Option (List Bool) :=
  if ancName = "waveFrequencyFlagPrimary" then none
  else if ancName = "gpsStatusFlags" then some (flags.map (fun f => decide (f < 0)))
  else
    let goodOpt : Option ℤ :=
      if ancName = "waveFlagPrimary" ∨ ancName = "sstFlagPrimary" ∨
          ancName = "acmFlagPrimary" ∨ ancName = "cat4FlagPrimary" then some 1
      else if ancName = "xyzFlagPrimary" then some 2
      else none
    match goodOpt with
    | none => none
    | some good =>
      if pubSet = "public" then some (flags.map (fun f => decide (f ≠ good)))
      else if pubSet = "nonpub" then some (flags.map (fun f => decide (f = good)))
      else if pubSet = "all" then some (flags.map (fun f => decide (f < 0)))
      else none

/-- A value held under one key of a record-set dictionary: a 1-dimensional
or a 2-dimensional numpy array (data part only). -/
inductive Val (α : Type) where
  | one : List α → Val α
  | two : List (List α) → Val α
deriving DecidableEq

/-- A record-set dictionary (`dict` of numpy arrays), as an association
list in insertion order. -/
abbrev Dict (α : Type) : Type := List (String × Val α)

/-- Number of records (outer length) of a value. -/
def Val.outerLen {α : Type} : Val α → Nat
  | .one l => l.length
  | .two m => m.length

/-- Contract model of `np.unique(xs)`: the sorted list of the distinct
values of `xs`. -/
def npUniqueVals {α : Type} [LinearOrder α] (xs : List α) : List α :=
  xs.dedup.insertionSort (· ≤ ·)

/-- Contract model of the index part of `np.unique(xs, return_index=True)`:
for each distinct value (in sorted order), the index of its first
occurrence in `xs`. -/
def npUniqueIdx {α : Type} [LinearOrder α] (xs : List α) : List Nat :=
  (npUniqueVals xs).map (fun v => xs.indexOf v)

/-- Numpy fancy indexing `arr[indices]` (rows for a 2-d array). The
claims only use it with in-range indices; out-of-range indices fall back
to a default instead of raising. -/
def reindexVal {α : Type} [Inhabited α] (v : Val α) (idxs : List Nat) : Val α :=
  match v with
  | .one l => .one (idxs.map (fun i => l.getD i default))
  | .two m => .two (idxs.map (fun i => m.getD i []))

/-- Model of `StnData.remove_duplicates` (stndata.py lines 379-403): the
first key determines the governing time dimension; `np.unique` collapses
its values to sorted distinct timestamps keeping first-occurrence
indices, and every other variable is re-indexed by those indices.
Returns `none` when Python would raise (missing or non-1-d time array). -/
def removeDuplicates {α : Type} [LinearOrder α] [Inhabited α] (d : Dict α) :
    Option (Dict α) :=
  match d.head? with
  | none => some d
  | some (k0, _) =>
    let tname := getVarPref k0 ++ "Time"
    match List.lookup tname d with
    | some (Val.one tvals) =>
        let idxs := npUniqueIdx tvals
        some ((tname, Val.one (npUniqueVals tvals)) ::
          (d.filter (fun kv => kv.1 ≠ tname)).map
            (fun kv => (kv.1, reindexVal kv.2 idxs)))
    | _ => none

/-- C9: for all Timespans a and b, `overlap a b = true` iff
`a.start_dt ≤ b.end_dt ∧ a.end_dt ≥ b.start_dt` (inclusive at both ends);
hence overlap is symmetric, and any Timespan with start ≤ end overlaps
itself. -/
theorem timespan_overlap_spec :
    (∀ a b : Timespan ℚ, a.overlap b = true ↔
        (a.start_dt ≤ b.end_dt ∧ a.end_dt ≥ b.start_dt)) ∧
    (∀ a b : Timespan ℚ, a.overlap b = b.overlap a) ∧
    (∀ a : Timespan ℚ, a.start_dt ≤ a.end_dt → a.overlap a = true) := by
  refine ⟨?_, ?_, ?_⟩
  · intro a b
    simp [Timespan.overlap]
  · intro a b
    simp only [Timespan.overlap, decide_eq_decide]
    constructor
    · rintro ⟨h1, h2⟩; exact ⟨h2, h1⟩
    · rintro ⟨h1, h2⟩; exact ⟨h2, h1⟩
  · intro a h
    simp only [Timespan.overlap, decide_eq_true_eq]
    exact ⟨h, h⟩

/-- Witness for C9: a concrete Timespan with start ≤ end overlaps itself
(two spans touching at a boundary also overlap). -/
theorem timespan_overlap_spec_witness :
    (Timespan.mk (3 : ℚ) 5).overlap (Timespan.mk 3 5) = true :=
  timespan_overlap_spec.2.2 (Timespan.mk 3 5) (by norm_num)

/-- C7: for every flag array and quality set, the quality mask excludes
exactly the records whose flag differs from the family's good sentinel
under "public", equals it under "nonpub", and no records with
non-negative flags under "all"; the sentinel is 1 for the
wave/sst/acm/cat4 flag families and 2 for the displacement (xyz) family. -/
theorem make_pub_mask_spec :
    ∀ (flags : List ℤ) (name : String) (good : ℤ),
      ((name ∈ ["waveFlagPrimary", "sstFlagPrimary", "acmFlagPrimary",
          "cat4FlagPrimary"] ∧ good = 1) ∨
        (name = "xyzFlagPrimary" ∧ good = 2)) →
      makePubMask name flags "public" =
          some (flags.map (fun f => decide (f ≠ good))) ∧
      makePubMask name flags "nonpub" =
          some (flags.map (fun f => decide (f = good))) ∧
      (∀ i : Nat, ∀ h : i < flags.length, 0 ≤ flags.get ⟨i, h⟩ →
        ((makePubMask name flags "all").getD []).getD i true = false) := by
  intro flags name good hname
  have hall : makePubMask name flags "all" =
      some (flags.map (fun f => decide (f < 0))) ∧
      makePubMask name flags "public" =
        some (flags.map (fun f => decide (f ≠ good))) ∧
      makePubMask name flags "nonpub" =
        some (flags.map (fun f => decide (f = good))) := by
    rcases hname with ⟨hm, hg⟩ | ⟨hm, hg⟩
    · subst hg
      fin_cases hm <;> simp [makePubMask]
    · subst hg hm
      simp [makePubMask]
  refine ⟨hall.2.1, hall.2.2, ?_⟩
  intro i h hge
  rw [hall.1]
  have hi : i < (flags.map (fun f => decide (f < 0))).length := by
    simpa using h
  rw [Option.getD_some, List.getD_eq_getElem _ _ hi, List.getElem_map]
  simp only [decide_eq_false_iff_not, not_lt]
  simpa [List.get_eq_getElem] using hge

/-- Witness for C7: the wave-family mask at concrete flags, and the "all"
mask excluding nothing for a non-negative flag. -/
theorem make_pub_mask_spec_witness :
    makePubMask "waveFlagPrimary" [1, 4] "nonpub" = some [true, false] ∧
    ((makePubMask "waveFlagPrimary" [1, 4] "all").getD []).getD 0 true = false := by
  have h := make_pub_mask_spec [1, 4] "waveFlagPrimary" 1
    (Or.inl ⟨by decide, rfl⟩)
  refine ⟨h.2.1.trans (by decide), h.2.2 0 (by decide) (by decide)⟩

/-- Helper: taking while `p` from a list that starts with a maximal `p`-run. -/
theorem takeWhile_pref_append {α : Type} (p : α → Bool) (l1 l2 : List α) :
    (l1.takeWhile p ++ l2).takeWhile p = l1.takeWhile p ++ l2.takeWhile p := by
  induction l1 with
  | nil => simp
  | cons x xs ih =>
    by_cases hp : p x
    · simp [List.takeWhile_cons, hp, ih]
    · simp [List.takeWhile_cons, hp]

/-- The variable-name stem is stable: the stem of `stem(k) ++ "Time"` is
`stem(k)` again (the stem contains no uppercase letter and 'T' stops the
scan). This drives idempotence of `removeDuplicates`. -/
theorem getVarPref_append_time (k : String) :
    getVarPref (getVarPref k ++ "Time") = getVarPref k := by
  unfold getVarPref
  apply congrArg
  rw [String.data_append]
  show (List.takeWhile _ k.data ++ ("Time").data).takeWhile _ = _
  rw [takeWhile_pref_append]
  have : ("Time").data.takeWhile (fun c => !c.isUpper) = [] := by decide
  rw [this, List.append_nil]

/-- The sorted distinct values are sorted. -/
theorem npUniqueVals_sorted {α : Type} [LinearOrder α] (xs : List α) :
    List.Sorted (· ≤ ·) (npUniqueVals xs) :=
  List.sorted_insertionSort _ _

/-- The sorted distinct values contain no duplicates: exactly one record
per distinct timestamp. -/
theorem npUniqueVals_nodup {α : Type} [LinearOrder α] (xs : List α) :
    (npUniqueVals xs).Nodup :=
  ((List.perm_insertionSort _ _).nodup_iff).2 (List.nodup_dedup xs)

/-- The sorted distinct values are exactly the values of the input. -/
theorem mem_npUniqueVals {α : Type} [LinearOrder α] {xs : List α} {a : α} :
    a ∈ npUniqueVals xs ↔ a ∈ xs := by
  unfold npUniqueVals
  rw [(List.perm_insertionSort _ _).mem_iff, List.mem_dedup]

/-- Deduplicated length never exceeds the input length. -/
theorem npUniqueVals_length_le {α : Type} [LinearOrder α] (xs : List α) :
    (npUniqueVals xs).length ≤ xs.length := by
  unfold npUniqueVals
  rw [(List.perm_insertionSort _ _).length_eq]
  exact (List.dedup_sublist xs).length_le

/-- A list of sorted distinct values is a fixed point of `npUniqueVals`. -/
theorem npUniqueVals_eq_self {α : Type} [LinearOrder α] {xs : List α}
    (hs : List.Sorted (· ≤ ·) xs) (hn : xs.Nodup) : npUniqueVals xs = xs := by
  unfold npUniqueVals
  rw [List.dedup_eq_self.2 hn, hs.insertionSort_eq]

/-- On a list of sorted distinct values the first-occurrence indices are
just 0, 1, 2, …. -/
theorem npUniqueIdx_eq_range {α : Type} [LinearOrder α] {xs : List α}
    (hs : List.Sorted (· ≤ ·) xs) (hn : xs.Nodup) :
    npUniqueIdx xs = List.range xs.length := by
  unfold npUniqueIdx
  rw [npUniqueVals_eq_self hs hn]
  apply List.ext_getElem
  · simp
  · intro n h1 h2
    rw [List.getElem_map, List.getElem_range]
    exact List.indexOf_getElem hn n (by simpa using h1)

/-- Re-indexing an aligned value by 0, 1, 2, … is the identity. -/
theorem reindexVal_range {α : Type} [Inhabited α] {v : Val α} {n : Nat}
    (h : v.outerLen = n) : reindexVal v (List.range n) = v := by
  cases v with
  | one l =>
    simp only [Val.outerLen] at h
    subst h
    simp only [reindexVal, Val.one.injEq]
    apply List.ext_getElem
    · simp
    · intro i h1 h2
      rw [List.getElem_map, List.getElem_range, List.getD_eq_getElem _ _ h2]
  | two m =>
    simp only [Val.outerLen] at h
    subst h
    simp only [reindexVal, Val.two.injEq]
    apply List.ext_getElem
    · simp
    · intro i h1 h2
      rw [List.getElem_map, List.getElem_range, List.getD_eq_getElem _ _ h2]

/-- Re-indexing produces as many records as there are indices. -/
theorem reindexVal_outerLen {α : Type} [Inhabited α] (v : Val α)
    (idxs : List Nat) : (reindexVal v idxs).outerLen = idxs.length := by
  cases v <;> simp [reindexVal, Val.outerLen]

/-- The first-occurrence index list is as long as the distinct-value list. -/
theorem npUniqueIdx_length {α : Type} [LinearOrder α] (xs : List α) :
    (npUniqueIdx xs).length = (npUniqueVals xs).length := by
  simp [npUniqueIdx]

/-- C2: `remove_duplicates` keeps exactly one record per distinct
timestamp of the governing time dimension (named by the first key's
stem), selecting the first occurrence of each timestamp in concatenation
order, re-indexing every other variable by the same selection; the result
has at most as many records as the input, and the operation is
idempotent. -/
theorem remove_duplicates_spec {α : Type} [LinearOrder α] [Inhabited α]
    (d : Dict α) (k0 : String) (v0 : Val α) (rest : List (String × Val α))
    (tvals : List α)
    (hd : d = (k0, v0) :: rest)
    (ht : List.lookup (getVarPref k0 ++ "Time") d = some (Val.one tvals)) :
    ∃ r, removeDuplicates d = some r ∧
      List.lookup (getVarPref k0 ++ "Time") r
          = some (Val.one (npUniqueVals tvals)) ∧
      (npUniqueVals tvals).Nodup ∧
      (∀ t, t ∈ npUniqueVals tvals ↔ t ∈ tvals) ∧
      (∀ k, k < (npUniqueVals tvals).length →
        (npUniqueIdx tvals).getD k 0 < tvals.length ∧
        tvals.getD ((npUniqueIdx tvals).getD k 0) default
            = (npUniqueVals tvals).getD k default ∧
        ∀ j, j < (npUniqueIdx tvals).getD k 0 →
          tvals.getD j default ≠ (npUniqueVals tvals).getD k default) ∧
      (∀ p ∈ d, p.1 ≠ getVarPref k0 ++ "Time" →
        (p.1, reindexVal p.2 (npUniqueIdx tvals)) ∈ r) ∧
      (npUniqueVals tvals).length ≤ tvals.length ∧
      removeDuplicates r = some r := by
  subst hd
  set tname := getVarPref k0 ++ "Time" with htname
  set tail := (((k0, v0) :: rest).filter (fun kv => kv.1 ≠ tname)).map
      (fun kv => (kv.1, reindexVal kv.2 (npUniqueIdx tvals))) with htail
  refine ⟨(tname, Val.one (npUniqueVals tvals)) :: tail, ?_, ?_,
    npUniqueVals_nodup tvals, fun t => mem_npUniqueVals, ?_, ?_,
    npUniqueVals_length_le tvals, ?_⟩
  · show removeDuplicates ((k0, v0) :: rest) = _
    unfold removeDuplicates
    simp only [List.head?]
    rw [← htname, ht]
  · simp [List.lookup]
  · -- first-occurrence selection
    intro k hk
    have hmap : (npUniqueIdx tvals).getD k 0
        = tvals.indexOf ((npUniqueVals tvals).getD k default) := by
      unfold npUniqueIdx
      rw [List.getD_eq_getElem _ _ (by simpa using hk),
        List.getElem_map, List.getD_eq_getElem _ _ hk]
    have hv : (npUniqueVals tvals).getD k default ∈ tvals := by
      apply mem_npUniqueVals.1
      rw [List.getD_eq_getElem _ _ hk]
      exact List.getElem_mem hk
    have hidxlt : tvals.indexOf ((npUniqueVals tvals).getD k default)
        < tvals.length := List.indexOf_lt_length.2 hv
    refine ⟨by rw [hmap]; exact hidxlt, ?_, ?_⟩
    · rw [hmap, List.getD_eq_getElem _ _ hidxlt]
      exact List.getElem_indexOf hidxlt
    · intro j hj
      rw [hmap] at hj
      have hjl : j < tvals.length := lt_trans hj hidxlt
      rw [List.getD_eq_getElem _ _ hjl]
      intro heq
      have hj' : j < tvals.findIdx
          (fun x => x == (npUniqueVals tvals).getD k default) := by
        simpa [List.indexOf] using hj
      have hne := List.not_of_lt_findIdx hj'
      rw [heq] at hne
      simp at hne
  · -- every other variable is re-indexed by the same selection
    intro p hp hne
    apply List.mem_cons_of_mem
    rw [htail]
    exact List.mem_map.2 ⟨p, List.mem_filter.2 ⟨hp, by simpa using hne⟩, rfl⟩
  · -- idempotence
    have hsorted : List.Sorted (· ≤ ·) (npUniqueVals tvals) :=
      npUniqueVals_sorted tvals
    have hnodup : (npUniqueVals tvals).Nodup := npUniqueVals_nodup tvals
    have hpref : getVarPref tname ++ "Time" = tname := by
      rw [htname, getVarPref_append_time]
    have hfix : npUniqueVals (npUniqueVals tvals) = npUniqueVals tvals :=
      npUniqueVals_eq_self hsorted hnodup
    have hrange : npUniqueIdx (npUniqueVals tvals)
        = List.range (npUniqueVals tvals).length :=
      npUniqueIdx_eq_range hsorted hnodup
    have hfilter : ((tname, Val.one (npUniqueVals tvals)) :: tail).filter
        (fun kv => kv.1 ≠ tname) = tail := by
      rw [List.filter_cons_of_neg (by simp)]
      apply List.filter_eq_self.2
      intro a ha
      rw [htail] at ha
      obtain ⟨kv, hkv, hkva⟩ := List.mem_map.1 ha
      have := (List.mem_filter.1 hkv).2
      simp only [← hkva]
      simpa using this
    have hmapid : tail.map
        (fun kv => (kv.1, reindexVal kv.2 (npUniqueIdx (npUniqueVals tvals))))
        = tail := by
      rw [hrange]
      have := List.map_congr_left (l := tail)
        (f := fun kv => (kv.1, reindexVal kv.2
          (List.range (npUniqueVals tvals).length))) (g := id) ?_
      · rw [this, List.map_id]
      · intro kv hkv
        rw [htail] at hkv
        obtain ⟨q, _, hq⟩ := List.mem_map.1 hkv
        have hlen : kv.2.outerLen = (npUniqueVals tvals).length := by
          rw [← hq]
          simp only [reindexVal_outerLen]
          rw [npUniqueIdx_length]
        simp only [id_eq]
        rw [reindexVal_range hlen]
    show removeDuplicates
        ((tname, Val.one (npUniqueVals tvals)) :: tail) = _
    unfold removeDuplicates
    simp only [List.head?]
    rw [hpref]
    rw [show List.lookup tname
        ((tname, Val.one (npUniqueVals tvals)) :: tail)
        = some (Val.one (npUniqueVals tvals)) by simp [List.lookup]]
    dsimp only
    rw [hfix, hfilter, hmapid]

/-- Witness for C2 at a concrete three-record dictionary with one
duplicated timestamp. -/
theorem remove_duplicates_spec_witness :
    ∃ r, removeDuplicates
        ([("waveTime", Val.one [(5 : ℚ), 3, 5]),
          ("waveHs", Val.one [10, 20, 30])]) = some r ∧
      List.lookup (getVarPref "waveTime" ++ "Time") r
          = some (Val.one (npUniqueVals [(5 : ℚ), 3, 5])) ∧
      (npUniqueVals [(5 : ℚ), 3, 5]).Nodup ∧
      (∀ t, t ∈ npUniqueVals [(5 : ℚ), 3, 5] ↔ t ∈ [(5 : ℚ), 3, 5]) ∧
      (∀ k, k < (npUniqueVals [(5 : ℚ), 3, 5]).length →
        (npUniqueIdx [(5 : ℚ), 3, 5]).getD k 0 < ([(5 : ℚ), 3, 5]).length ∧
        ([(5 : ℚ), 3, 5]).getD ((npUniqueIdx [(5 : ℚ), 3, 5]).getD k 0) default
            = (npUniqueVals [(5 : ℚ), 3, 5]).getD k default ∧
        ∀ j, j < (npUniqueIdx [(5 : ℚ), 3, 5]).getD k 0 →
          ([(5 : ℚ), 3, 5]).getD j default
              ≠ (npUniqueVals [(5 : ℚ), 3, 5]).getD k default) ∧
      (∀ p ∈ [("waveTime", Val.one [(5 : ℚ), 3, 5]),
          ("waveHs", Val.one [10, 20, 30])],
        p.1 ≠ getVarPref "waveTime" ++ "Time" →
        (p.1, reindexVal p.2 (npUniqueIdx [(5 : ℚ), 3, 5])) ∈ r) ∧
      (npUniqueVals [(5 : ℚ), 3, 5]).length ≤ ([(5 : ℚ), 3, 5]).length ∧
      removeDuplicates r = some r :=
  remove_duplicates_spec _ "waveTime" (Val.one [(5 : ℚ), 3, 5])
    [("waveHs", Val.one [10, 20, 30])] [(5 : ℚ), 3, 5] rfl (by decide)

/-- Modelled from the spec: `get_closest_index` lives in the module
`cdippy/utils/utils.py`, which is not present under src (only its
callers are). Per spec section 4.2, it compares the two bracketing
neighbours and picks the one with the smaller absolute difference. -/
def get_closest_index (lo hi : Nat) (stamps : List ℚ) (target : ℚ) : Nat :=
  if |stamps.getD hi 0 - target| < |stamps.getD lo 0 - target| then hi else lo

/-- Model of the realtime-branch nearest-index computation inside
`StnData.get_target_timespan` (stndata.py lines 581-594): bisect to the
insertion point, clamp it to the last index, return it directly on an
exact match or when it equals the last index, otherwise compare the two
bracketing neighbours; `none` models `r_closest_idx` remaining `None`
(an insertion point of 0 without exact match falls through to the
historic file). -/
def nearestIndexRT (stamps : List ℚ) (target : ℚ) : Option Nat :=
  let lastIdx := stamps.length - 1
  let ib := min (bisectLeft stamps target) lastIdx
  if ib = lastIdx ∨ stamps.getD ib 0 = target then some ib
  else if 0 < ib then some (get_closest_index (ib - 1) ib stamps target)
  else none

/-- Every element strictly before the left insertion point is below the
probe value. -/
theorem bisectLeft_lt {α : Type} [LinearOrder α] {a : List α} {x : α}
    {j : Nat} (hj : j < bisectLeft a x) (hl : j < a.length) : a[j] < x := by
  unfold bisectLeft at hj
  have hpre := List.takeWhile_prefix (l := a) (fun t => decide (t < x))
  have := hpre.getElem (n := j) hj
  rw [← this]
  have hmem := List.getElem_mem (l := a.takeWhile (fun t => decide (t < x))) hj
  simpa using List.mem_takeWhile_imp hmem

/-- The element at the left insertion point (when it exists) is at or
above the probe value. -/
theorem bisectLeft_ge {α : Type} [LinearOrder α] {a : List α} {x : α}
    (h : bisectLeft a x < a.length) : x ≤ a[bisectLeft a x] := by
  induction a with
  | nil => simp at h
  | cons y ys ih =>
    by_cases hy : y < x
    · have hb : bisectLeft (y :: ys) x = bisectLeft ys x + 1 := by
        simp [bisectLeft, List.takeWhile_cons, hy]
      have h' : bisectLeft ys x < ys.length := by
        rw [hb] at h; simpa using h
      simp only [hb, List.getElem_cons_succ]
      exact ih h'
    · have hb : bisectLeft (y :: ys) x = 0 := by
        simp [bisectLeft, List.takeWhile_cons, hy]
      simp only [hb, List.getElem_cons_zero]
      exact le_of_not_lt hy

/-- The left insertion point never exceeds the array length. -/
theorem bisectLeft_le_length {α : Type} [LinearOrder α] (a : List α) (x : α) :
    bisectLeft a x ≤ a.length :=
  (List.takeWhile_prefix _).length_le

/-- C4 (amended): over a sorted non-empty time array the nearest-record
search returns the index of the stored time closest to the target only
when the clamped insertion point lies strictly inside the array (exact
match wins, otherwise the two bracketing neighbours are compared); when
the insertion point is at or beyond the last index the last index is
returned even if the previous element is strictly closer, and when the
target precedes the first element without an exact match no index is
returned (the search falls through to the older source). -/
theorem nearest_index_search_amended (stamps : List ℚ) (target : ℚ)
    (hs : List.Sorted (· ≤ ·) stamps) (hne : stamps ≠ []) :
    (min (bisectLeft stamps target) (stamps.length - 1) = stamps.length - 1 ∨
        stamps.getD (min (bisectLeft stamps target) (stamps.length - 1)) 0
          = target →
      nearestIndexRT stamps target
        = some (min (bisectLeft stamps target) (stamps.length - 1))) ∧
    (min (bisectLeft stamps target) (stamps.length - 1) ≠ stamps.length - 1 →
      stamps.getD (min (bisectLeft stamps target) (stamps.length - 1)) 0
          ≠ target →
      0 < min (bisectLeft stamps target) (stamps.length - 1) →
      ∃ i, nearestIndexRT stamps target = some i ∧
        ∀ j, j < stamps.length →
          |stamps.getD i 0 - target| ≤ |stamps.getD j 0 - target|) ∧
    (min (bisectLeft stamps target) (stamps.length - 1) = 0 →
      stamps.getD 0 0 ≠ target → stamps.length - 1 ≠ 0 →
      nearestIndexRT stamps target = none) ∧
    (stamps.length ≤ bisectLeft stamps target →
      nearestIndexRT stamps target = some (stamps.length - 1)) := by
  have hlen : 0 < stamps.length := List.length_pos.2 hne
  refine ⟨?_, ?_, ?_, ?_⟩
  · intro h
    simp only [nearestIndexRT]
    rw [if_pos h]
  · intro h1 h2 h3
    have hib : min (bisectLeft stamps target) (stamps.length - 1)
        = bisectLeft stamps target := by omega
    rw [hib] at h1 h2 h3
    have hBlt : bisectLeft stamps target < stamps.length - 1 := by
      have := bisectLeft_le_length stamps target
      omega
    have hBlen : bisectLeft stamps target < stamps.length := by omega
    have hB1len : bisectLeft stamps target - 1 < stamps.length := by omega
    have hgB : stamps.getD (bisectLeft stamps target) 0
        = stamps[bisectLeft stamps target] := List.getD_eq_getElem _ _ hBlen
    have hgB1 : stamps.getD (bisectLeft stamps target - 1) 0
        = stamps[bisectLeft stamps target - 1] := List.getD_eq_getElem _ _ hB1len
    have hge : target ≤ stamps[bisectLeft stamps target] := bisectLeft_ge hBlen
    have hlt : stamps[bisectLeft stamps target - 1] < target := by
      have hx : target ≠ stamps[bisectLeft stamps target] := by
        rw [hgB] at h2; exact fun he => h2 he.symm
      exact bisectLeft_lt (by omega) hB1len
    refine ⟨get_closest_index (bisectLeft stamps target - 1)
        (bisectLeft stamps target) stamps target, ?_, ?_⟩
    · simp only [nearestIndexRT]
      rw [if_neg (by rw [hib]; push_neg; exact ⟨h1, h2⟩), if_pos (by omega), hib]
    · intro j hj
      have hgj : stamps.getD j 0 = stamps[j] := List.getD_eq_getElem _ _ hj
      have habs1 : |stamps[bisectLeft stamps target - 1] - target|
          = target - stamps[bisectLeft stamps target - 1] := by
        rw [abs_of_nonpos (by linarith)]; ring
      have habs2 : |stamps[bisectLeft stamps target] - target|
          = stamps[bisectLeft stamps target] - target :=
        abs_of_nonneg (by linarith)
      have hkey : min (|stamps[bisectLeft stamps target - 1] - target|)
          (|stamps[bisectLeft stamps target] - target|)
          ≤ |stamps.getD j 0 - target| := by
        rw [hgj]
        rcases lt_or_ge j (bisectLeft stamps target) with hjB | hjB
        · have hmono : stamps[j] ≤ stamps[bisectLeft stamps target - 1] := by
            have := hs.get_mono (a := ⟨j, hj⟩)
              (b := ⟨bisectLeft stamps target - 1, hB1len⟩)
              (Fin.mk_le_mk.2 (by omega))
            simpa [List.get_eq_getElem] using this
          have habsj : |stamps[j] - target| = target - stamps[j] := by
            rw [abs_of_nonpos (by linarith)]; ring
          calc min _ _ ≤ |stamps[bisectLeft stamps target - 1] - target| :=
              min_le_left _ _
            _ ≤ |stamps[j] - target| := by rw [habs1, habsj]; linarith
        · have hmono : stamps[bisectLeft stamps target] ≤ stamps[j] := by
            have := hs.get_mono (a := ⟨bisectLeft stamps target, hBlen⟩)
              (b := ⟨j, hj⟩) (Fin.mk_le_mk.2 hjB)
            simpa [List.get_eq_getElem] using this
          have habsj : |stamps[j] - target| = stamps[j] - target :=
            abs_of_nonneg (by linarith)
          calc min _ _ ≤ |stamps[bisectLeft stamps target] - target| :=
              min_le_right _ _
            _ ≤ |stamps[j] - target| := by rw [habs2, habsj]; linarith
      unfold get_closest_index
      split_ifs with hcl
      · rw [hgB]
        calc |stamps[bisectLeft stamps target] - target|
            = min (|stamps[bisectLeft stamps target - 1] - target|)
              (|stamps[bisectLeft stamps target] - target|) := by
              rw [min_eq_right (le_of_lt (by rw [← hgB, ← hgB1]; exact hcl))]
          _ ≤ _ := hkey
      · rw [hgB1]
        calc |stamps[bisectLeft stamps target - 1] - target|
            = min (|stamps[bisectLeft stamps target - 1] - target|)
              (|stamps[bisectLeft stamps target] - target|) := by
              rw [min_eq_left (le_of_not_lt (by rw [← hgB, ← hgB1]; exact hcl))]
          _ ≤ _ := hkey
  · intro h1 h2 h3
    simp only [nearestIndexRT]
    rw [if_neg (by rw [h1]; push_neg; exact ⟨fun he => h3 he.symm, h2⟩),
      if_neg (by rw [h1]; exact lt_irrefl 0)]
  · intro h
    have hib : min (bisectLeft stamps target) (stamps.length - 1)
        = stamps.length - 1 := by omega
    simp only [nearestIndexRT]
    rw [if_pos (Or.inl hib), hib]

/-- Counterexample to C4 as stated: with stored times [0, 10] and target
1 the search returns index 1 (stored time 10) because the clamped
insertion point equals the last index, although index 0 (stored time 0)
is strictly closer to the target. -/
theorem nearest_index_search_cex :
    nearestIndexRT [0, 10] 1 = some 1 ∧
    |(0 : ℚ) - 1| < |(10 : ℚ) - 1| ∧
    nearestIndexRT [0, 10] 1 ≠ some 0 := by
  have hb : bisectLeft [(0 : ℚ), 10] 1 = 1 := by
    norm_num [bisectLeft, List.takeWhile_cons]
  have h1 : nearestIndexRT [(0 : ℚ), 10] 1 = some 1 := by
    simp [nearestIndexRT, hb]
  refine ⟨h1, by norm_num, by rw [h1]; simp⟩

/-- Witness for C4 (amended) at a concrete sorted array whose insertion
point lies strictly inside: the returned index globally minimises the
distance to the target. -/
theorem nearest_index_search_amended_witness :
    ∃ i, nearestIndexRT [0, 2, 10] (1/2) = some i ∧
      ∀ j, j < ([(0 : ℚ), 2, 10]).length →
        |([(0 : ℚ), 2, 10]).getD i 0 - 1/2|
          ≤ |([(0 : ℚ), 2, 10]).getD j 0 - 1/2| := by
  have hb : bisectLeft [(0 : ℚ), 2, 10] (1/2) = 1 := by
    norm_num [bisectLeft, List.takeWhile_cons]
  exact (nearest_index_search_amended [0, 2, 10] (1/2)
      (by norm_num [List.sorted_cons]) (by simp)).2.1
    (by rw [hb]; norm_num) (by rw [hb]; norm_num [List.getD])
    (by rw [hb]; norm_num)

/-- Model of `CDIPnc.__get_indices` (cdipnc.py lines 370-375): the start
index includes any time equal to `start_stamp` (bisect left) and the end
index is one past the last time at or below `end_stamp` (bisect right,
searching from the start index on). -/
def getIndices (times : List ℚ) (startStamp endStamp : ℚ) : Nat × Nat :=
  let s := bisectLeft times startStamp
  (s, bisectRightFrom times endStamp s)

/-- Slicing a 1-d or 2-d array on its leading (time) dimension. -/
def sliceVal {α : Type} (v : Val α) (s e : Nat) : Val α :=
  match v with
  | .one l => .one (pySlice l s e)
  | .two m => .two (pySlice m s e)

/-- Numpy boolean selection `v[~mask]`: keep exactly the positions where
the exclusion mask is False. -/
def applyMaskList {β : Type} (l : List β) (mask : List Bool) : List β :=
  (l.zip mask).filterMap (fun p => if p.2 then none else some p.1)

/-- Row-wise boolean selection on a record-set value. -/
def maskVal {α : Type} (v : Val α) (mask : List Bool) : Val α :=
  match v with
  | .one l => .one (applyMaskList l mask)
  | .two m => .two (applyMaskList m mask)

/-- One netCDF dataset with a single governing time dimension: the time
coordinate array, the variables on that dimension (index-aligned with
the times), and the optional ancillary quality-flag variable of the
requested variable family. -/
structure NcDataset where
  timeName : String
  times : List ℚ
  tvars : List (String × Val ℚ)
  anc : Option (String × List ℤ)

/-- Model of `CDIPnc.get_request` (cdipnc.py lines 178-266) restricted
to variables governed by one time dimension: find the start and end
indices on the sorted time array, return an empty dictionary when they
coincide, otherwise slice the time array and every requested variable to
the same index range; build the quality mask from the sliced ancillary
flags and, when `apply_mask` is set and a mask exists, drop the masked
positions from every returned array. Variables missing from the dataset
are skipped. -/
def getRequest (ds : NcDataset) (vrs : List String) (startStamp endStamp : ℚ)
    (pubSet : String) (applyMask : Bool) : Dict ℚ :=
  let s := (getIndices ds.times startStamp endStamp).1
  let e := (getIndices ds.times startStamp endStamp).2
  if s = e then []
  else
    let sliced : Dict ℚ :=
      (ds.timeName, Val.one (pySlice ds.times s e)) ::
        vrs.filterMap (fun v =>
          match List.lookup v ds.tvars with
          | some arr => some (v, sliceVal arr s e)
          | none => none)
    match ds.anc with
    | some (ancName, flags) =>
        match makePubMask ancName (pySlice flags s e) pubSet with
        | some mask =>
            if applyMask then sliced.map (fun kv => (kv.1, maskVal kv.2 mask))
            else sliced
        | none => sliced
    | none => sliced

/-- Inside the maximal p-run every element satisfies p. -/
theorem takeWhile_getElem_true {α : Type} {p : α → Bool} {l : List α}
    {j : Nat} (hj : j < (l.takeWhile p).length) (hl : j < l.length) :
    p l[j] = true := by
  have hpre := List.takeWhile_prefix (l := l) p
  have := hpre.getElem (n := j) hj
  rw [← this]
  exact List.mem_takeWhile_imp (List.getElem_mem hj)

/-- The first element after the maximal p-run fails p. -/
theorem takeWhile_getElem_false {α : Type} {p : α → Bool} {l : List α}
    (h : (l.takeWhile p).length < l.length) :
    p l[(l.takeWhile p).length] = false := by
  induction l with
  | nil => simp at h
  | cons y ys ih =>
    by_cases hy : p y
    · have hb : ((y :: ys).takeWhile p).length = (ys.takeWhile p).length + 1 := by
        simp [List.takeWhile_cons, hy]
      have h' : (ys.takeWhile p).length < ys.length := by
        rw [hb] at h; simpa using h
      simp only [hb, List.getElem_cons_succ]
      exact ih h'
    · have hb : ((y :: ys).takeWhile p).length = 0 := by
        simp [List.takeWhile_cons, hy]
      simp only [hb, List.getElem_cons_zero]
      exact Bool.eq_false_iff.2 hy

/-- Dropping the maximal p-run is `dropWhile`. -/
theorem drop_takeWhile_length {α : Type} (p : α → Bool) (l : List α) :
    l.drop (l.takeWhile p).length = l.dropWhile p := by
  induction l with
  | nil => rfl
  | cons y ys ih =>
    by_cases hy : p y
    · simp [List.takeWhile_cons, List.dropWhile_cons, hy, ih]
    · simp [List.takeWhile_cons, List.dropWhile_cons, hy]

/-- On a sorted list, taking while at most c is the same as filtering. -/
theorem sorted_takeWhile_le_eq_filter {c : ℚ} {l : List ℚ}
    (hs : List.Sorted (· ≤ ·) l) :
    l.takeWhile (fun t => decide (t ≤ c)) = l.filter (fun t => decide (t ≤ c)) := by
  induction l with
  | nil => rfl
  | cons x xs ih =>
    rw [List.sorted_cons] at hs
    by_cases hx : x ≤ c
    · rw [List.takeWhile_cons, if_pos (by simpa using hx),
        List.filter_cons, if_pos (by simpa using hx), ih hs.2]
    · rw [List.takeWhile_cons, if_neg (by simpa using hx),
        List.filter_cons, if_neg (by simpa using hx)]
      symm
      apply List.filter_eq_nil_iff.2
      intro a ha
      simp only [decide_eq_true_eq]
      intro hac
      exact hx (le_trans (hs.1 a ha) hac)

/-- On a sorted list the window slice [first index at or above a, first
index above b) holds exactly the elements within [a, b]. -/
theorem sorted_window_slice {a b : ℚ} {l : List ℚ}
    (hs : List.Sorted (· ≤ ·) l) :
    (l.dropWhile (fun t => decide (t < a))).takeWhile (fun t => decide (t ≤ b))
      = l.filter (fun t => decide (a ≤ t ∧ t ≤ b)) := by
  induction l with
  | nil => rfl
  | cons x xs ih =>
    rw [List.sorted_cons] at hs
    by_cases hx : x < a
    · rw [List.dropWhile_cons, if_pos (by simpa using hx), List.filter_cons,
        if_neg (by simp only [decide_eq_true_eq]; exact fun hc => absurd hc.1 (not_le.2 hx))]
      exact ih hs.2
    · have hax : a ≤ x := le_of_not_lt hx
      by_cases hxb : x ≤ b
      · rw [List.dropWhile_cons, if_neg (by simpa using hx),
          List.takeWhile_cons, if_pos (by simpa using hxb), List.filter_cons,
          if_pos (by simp [hax, hxb])]
        rw [sorted_takeWhile_le_eq_filter hs.2]
        congr 1
        apply List.filter_congr
        intro t ht
        have hat : a ≤ t := le_trans hax (hs.1 t ht)
        simp [hat]
      · rw [List.dropWhile_cons, if_neg (by simpa using hx),
          List.takeWhile_cons, if_neg (by simpa using hxb), List.filter_cons,
          if_neg (by simp only [decide_eq_true_eq]; exact fun hc => hxb hc.2)]
        symm
        apply List.filter_eq_nil_iff.2
        intro t ht
        simp only [decide_eq_true_eq]
        rintro ⟨-, htb⟩
        exact hxb (le_trans (hs.1 t ht) htb)

/-- The slice between the two insertion points is exactly the window. -/
theorem getIndices_slice {a b : ℚ} {times : List ℚ}
    (hs : List.Sorted (· ≤ ·) times) :
    pySlice times (getIndices times a b).1 (getIndices times a b).2
      = times.filter (fun t => decide (a ≤ t ∧ t ≤ b)) := by
  show pySlice times (bisectLeft times a)
      (bisectRightFrom times b (bisectLeft times a)) = _
  unfold pySlice bisectRightFrom
  rw [List.drop_take]
  have hsub : bisectLeft times a +
      ((times.drop (bisectLeft times a)).takeWhile
        (fun t => decide (t ≤ b))).length - bisectLeft times a
      = ((times.drop (bisectLeft times a)).takeWhile
        (fun t => decide (t ≤ b))).length := by omega
  rw [hsub]
  have hdrop : times.drop (bisectLeft times a)
      = times.dropWhile (fun t => decide (t < a)) := by
    unfold bisectLeft
    exact drop_takeWhile_length _ times
  rw [hdrop]
  rw [← List.prefix_iff_eq_take.1 (List.takeWhile_prefix _)]
  exact sorted_window_slice hs

/-- C6: `get_request` selects exactly the records whose stored time t
satisfies start ≤ t ≤ end — the start index is the first index at or
above the window start, the end index the first index above the window
end, both found on the sorted time array — slicing every requested
variable on that dimension to the same index range, and returning an
empty record set (not an error) when zero records fall in the window.
The per-variable equations are stated for a dataset without an ancillary
quality variable, since quality masking is a separate later stage. -/
theorem get_request_window_spec (ds : NcDataset) (vrs : List String)
    (a b : ℚ) (pubSet : String) (applyMask : Bool)
    (hs : List.Sorted (· ≤ ·) ds.times) :
    (∀ j, j < (getIndices ds.times a b).1 → ds.times.getD j 0 < a) ∧
    ((getIndices ds.times a b).1 < ds.times.length →
      a ≤ ds.times.getD ((getIndices ds.times a b).1) 0) ∧
    (∀ j, (getIndices ds.times a b).1 ≤ j → j < (getIndices ds.times a b).2 →
      ds.times.getD j 0 ≤ b) ∧
    ((getIndices ds.times a b).2 < ds.times.length →
      b < ds.times.getD ((getIndices ds.times a b).2) 0) ∧
    (pySlice ds.times (getIndices ds.times a b).1 (getIndices ds.times a b).2
      = ds.times.filter (fun t => decide (a ≤ t ∧ t ≤ b))) ∧
    (ds.times.filter (fun t => decide (a ≤ t ∧ t ≤ b)) = [] →
      getRequest ds vrs a b pubSet applyMask = []) ∧
    (ds.anc = none → ds.times.filter (fun t => decide (a ≤ t ∧ t ≤ b)) ≠ [] →
      List.lookup ds.timeName (getRequest ds vrs a b pubSet applyMask)
        = some (Val.one (ds.times.filter (fun t => decide (a ≤ t ∧ t ≤ b)))) ∧
      ∀ v arr, v ∈ vrs → List.lookup v ds.tvars = some arr →
        (v, sliceVal arr (getIndices ds.times a b).1
            (getIndices ds.times a b).2)
          ∈ getRequest ds vrs a b pubSet applyMask) := by
  have hsle : (getIndices ds.times a b).1 ≤ ds.times.length :=
    bisectLeft_le_length ds.times a
  have htw : (getIndices ds.times a b).2 = (getIndices ds.times a b).1 +
      ((ds.times.drop (getIndices ds.times a b).1).takeWhile
        (fun t => decide (t ≤ b))).length := rfl
  have hele : (getIndices ds.times a b).2 ≤ ds.times.length := by
    rw [htw]
    have := (List.takeWhile_prefix
      (l := ds.times.drop (getIndices ds.times a b).1)
      (fun t => decide (t ≤ b))).length_le
    rw [List.length_drop] at this
    omega
  have hslice := getIndices_slice (a := a) (b := b) hs
  have hfe : ds.times.filter (fun t => decide (a ≤ t ∧ t ≤ b)) = [] ↔
      (getIndices ds.times a b).1 = (getIndices ds.times a b).2 := by
    constructor
    · intro hf
      rw [← hslice] at hf
      unfold pySlice at hf
      have hlen := congrArg List.length hf
      rw [List.length_drop, List.length_take] at hlen
      simp only [List.length_nil] at hlen
      omega
    · intro hse
      rw [← hslice]
      unfold pySlice
      apply List.eq_nil_of_length_eq_zero
      rw [List.length_drop, List.length_take]
      omega
  refine ⟨?_, ?_, ?_, ?_, hslice, ?_, ?_⟩
  · intro j hj
    have hjl : j < ds.times.length := lt_of_lt_of_le hj hsle
    rw [List.getD_eq_getElem _ _ hjl]
    exact bisectLeft_lt hj hjl
  · intro hlt
    rw [List.getD_eq_getElem _ _ hlt]
    exact bisectLeft_ge hlt
  · intro j hj1 hj2
    have hjl : j < ds.times.length := lt_of_lt_of_le hj2 hele
    rw [List.getD_eq_getElem _ _ hjl]
    have hjd : j - (getIndices ds.times a b).1 <
        ((ds.times.drop (getIndices ds.times a b).1).takeWhile
          (fun t => decide (t ≤ b))).length := by omega
    have hjd2 : j - (getIndices ds.times a b).1 <
        (ds.times.drop (getIndices ds.times a b).1).length := by
      rw [List.length_drop]; omega
    have := takeWhile_getElem_true hjd hjd2
    rw [List.getElem_drop] at this
    have hidx : (getIndices ds.times a b).1 +
        (j - (getIndices ds.times a b).1) = j := by omega
    simp only [hidx] at this
    simpa using this
  · intro hlt
    rw [List.getD_eq_getElem _ _ hlt]
    have hlt2 : ((ds.times.drop (getIndices ds.times a b).1).takeWhile
        (fun t => decide (t ≤ b))).length <
        (ds.times.drop (getIndices ds.times a b).1).length := by
      rw [List.length_drop]; omega
    have := takeWhile_getElem_false hlt2
    rw [List.getElem_drop] at this
    have hidx : (getIndices ds.times a b).1 +
        ((ds.times.drop (getIndices ds.times a b).1).takeWhile
          (fun t => decide (t ≤ b))).length = (getIndices ds.times a b).2 := by
      omega
    simp only [hidx] at this
    simpa using this
  · intro hf
    have hse := hfe.1 hf
    unfold getRequest
    rw [if_pos hse]
  · intro hanc hf
    have hse : ¬((getIndices ds.times a b).1 = (getIndices ds.times a b).2) :=
      fun h => hf (hfe.2 h)
    constructor
    · unfold getRequest
      rw [if_neg hse, hanc]
      simp only [List.lookup]
      rw [beq_self_eq_true]
      rw [hslice]
    · intro v arr hv harr
      unfold getRequest
      rw [if_neg hse, hanc]
      apply List.mem_cons_of_mem
      exact List.mem_filterMap.2 ⟨v, hv, by rw [harr]⟩

/-- Witness for C6 at a concrete dataset: three records, a window that
selects the middle one, and an empty-window request. -/
theorem get_request_window_spec_witness :
    List.lookup "waveTime"
        (getRequest (NcDataset.mk "waveTime" [0, 10, 20]
          [("waveHs", Val.one [1, 2, 3])] none) ["waveHs"] 5 15 "public" true)
      = some (Val.one ([(0 : ℚ), 10, 20].filter
          (fun t => decide ((5 : ℚ) ≤ t ∧ t ≤ 15)))) ∧
    getRequest (NcDataset.mk "waveTime" [(0 : ℚ), 10, 20]
        [("waveHs", Val.one [1, 2, 3])] none) ["waveHs"] 5 6 "public" true
      = [] := by
  constructor
  · exact ((get_request_window_spec
      (NcDataset.mk "waveTime" [0, 10, 20] [("waveHs", Val.one [1, 2, 3])] none)
      ["waveHs"] 5 15 "public" true
      (by norm_num [List.sorted_cons])).2.2.2.2.2.2 rfl
      (by norm_num)).1
  · exact (get_request_window_spec
      (NcDataset.mk "waveTime" [0, 10, 20] [("waveHs", Val.one [1, 2, 3])] none)
      ["waveHs"] 5 6 "public" true
      (by norm_num [List.sorted_cons])).2.2.2.2.2.1 (by norm_num)

end CDIP

namespace CDIP

/-- Model of Python `math.atan2(y, x)`: the argument of x + y i, in
(-pi, pi], with atan2(0, 0) = 0 as in Python. -/
noncomputable def pyAtan2 (y x : ℝ) : ℝ :=
  Complex.arg (Complex.ofReal x + Complex.ofReal y * Complex.I)

/-- Model of `math.degrees(math.atan2(sin_avg, cos_avg))` followed by the
`if < 0: += 360` normalisation in `Spectrum.redistribute_sp`
(spectra.py lines 305-307). -/
noncomputable def pyAtan2Deg (y x : ℝ) : ℝ :=
  let d := pyAtan2 y x * 180 / Real.pi
  if d < 0 then d + 360 else d

/-- The normalised direction always lies in [0, 360). -/
theorem pyAtan2Deg_mem (y x : ℝ) :
    0 ≤ pyAtan2Deg y x ∧ pyAtan2Deg y x < 360 := by
  unfold pyAtan2Deg pyAtan2
  have hpi : (0 : ℝ) < Real.pi := Real.pi_pos
  have harg1 : Complex.arg (Complex.ofReal x + Complex.ofReal y * Complex.I)
      ≤ Real.pi := Complex.arg_le_pi _
  have harg2 : -Real.pi < Complex.arg (Complex.ofReal x +
      Complex.ofReal y * Complex.I) := Complex.neg_pi_lt_arg _
  set t := Complex.arg (Complex.ofReal x + Complex.ofReal y * Complex.I)
  have hub : t * 180 / Real.pi ≤ 180 := by
    rw [div_le_iff₀ hpi]
    nlinarith
  have hlb : -180 < t * 180 / Real.pi := by
    rw [lt_div_iff₀ hpi]
    nlinarith
  by_cases hneg : t * 180 / Real.pi < 0
  · rw [if_pos hneg]
    constructor <;> nlinarith
  · rw [if_neg hneg]
    push_neg at hneg
    constructor <;> nlinarith

/-- The normalised direction is never the undefined sentinel -1. -/
theorem pyAtan2Deg_ne_neg_one (y x : ℝ) : pyAtan2Deg y x ≠ -1 := by
  have h := (pyAtan2Deg_mem y x).1
  intro hc
  rw [hc] at h
  norm_num at h

/-- Model of one spectral record (`Spectrum` instance attributes in
spectra.py): frequency and bandwidth arrays of the band layout, energy
density, mean direction, the four directional coefficients, and the
optional check factor (`None` when absent). -/
structure SpecRecord where
  wTime : ℝ
  freq : List ℝ
  bandwidth : List ℝ
  ener_dens : List ℝ
  dMean : List ℝ
  a1 : List ℝ
  b1 : List ℝ
  a2 : List ℝ
  b2 : List ℝ
  check : Option (List ℝ)

/-- Low cutoff `f - b/2` of band i (`Spectrum.freq_cutoffs`). -/
noncomputable def cutLo (freq bw : List ℝ) (i : Nat) : ℝ :=
  freq.getD i 0 - bw.getD i 0 / 2

/-- High cutoff `f + b/2` of band i (`Spectrum.freq_cutoffs`). -/
noncomputable def cutHi (freq bw : List ℝ) (i : Nat) : ℝ :=
  freq.getD i 0 + bw.getD i 0 / 2

/-- Width of the clipped overlap `[max(rBot,oBot), min(rTop,oTop)]`
between a target bin and a source band, zero when empty, written with
the same comparisons as the code. -/
noncomputable def overlapW (rBot rTop oBot oTop : ℝ) : ℝ :=
  let bot := if rBot ≥ oBot then rBot else oBot
  let top := if rTop ≤ oTop then rTop else oTop
  if bot < top then top - bot else 0

/-- Per-target-bin accumulator of `redistribute_sp`: accumulated energy,
weighted coefficient sums, weighted check sum, the two circular-mean
sums, and the missing-direction flag. -/
structure BandAcc where
  e : ℝ
  a1 : ℝ
  b1 : ℝ
  a2 : ℝ
  b2 : ℝ
  chk : ℝ
  sinS : ℝ
  cosS : ℝ
  missDir : Bool

/-- One iteration of the inner loop of `redistribute_sp` (spectra.py
lines 263-297): clip source band j against the current target bin, add
its energy, and when its direction is defined also add the weighted
coefficients, check factor and circular-mean terms. -/
noncomputable def bandStep (src : SpecRecord) (hasChk : Bool)
    (rBot rTop : ℝ) (acc : BandAcc) (j : Nat) : BandAcc :=
  let oBot := cutLo src.freq src.bandwidth j
  let oTop := cutHi src.freq src.bandwidth j
  let bot := if rBot ≥ oBot then rBot else oBot
  let top := if rTop ≤ oTop then rTop else oTop
  if bot < top then
    let currEnergy := src.ener_dens.getD j 0 * (top - bot)
    if currEnergy ≠ 0 then
      if src.dMean.getD j 0 = -1 then
        { acc with e := acc.e + currEnergy, missDir := true }
      else
        { e := acc.e + currEnergy,
          a1 := acc.a1 + currEnergy * src.a1.getD j 0,
          b1 := acc.b1 + currEnergy * src.b1.getD j 0,
          a2 := acc.a2 + currEnergy * src.a2.getD j 0,
          b2 := acc.b2 + currEnergy * src.b2.getD j 0,
          chk := acc.chk + (if hasChk then
            currEnergy * (src.check.getD []).getD j 0 else 0),
          sinS := acc.sinS + currEnergy *
            Real.sin (src.dMean.getD j 0 * Real.pi / 180),
          cosS := acc.cosS + currEnergy *
            Real.cos (src.dMean.getD j 0 * Real.pi / 180),
          missDir := acc.missDir }
    else acc
  else acc

/-- The finished values of one target bin. -/
structure BandVals where
  ed : ℝ
  dm : ℝ
  a1 : ℝ
  b1 : ℝ
  a2 : ℝ
  b2 : ℝ
  chk : ℝ

/-- First post-processing stage of `redistribute_sp` (spectra.py lines
300-313): when the accumulated energy is positive divide it by the bin
bandwidth and, when no contributing band had an undefined direction,
compute the circular-mean direction and divide the accumulated sums by
the bandwidth. -/
noncomputable def bandStage1 (tBwi : ℝ) (acc : BandAcc) : BandVals :=
  if acc.e > 0 then
    let ed := acc.e / tBwi
    if acc.missDir then
      ⟨ed, -1, acc.a1, acc.b1, acc.a2, acc.b2, acc.chk⟩
    else
      ⟨ed, pyAtan2Deg (acc.sinS / ed) (acc.cosS / ed),
        acc.a1 / tBwi, acc.b1 / tBwi, acc.a2 / tBwi, acc.b2 / tBwi,
        acc.chk / tBwi⟩
  else ⟨acc.e, -1, acc.a1, acc.b1, acc.a2, acc.b2, acc.chk⟩

/-- Second post-processing stage of `redistribute_sp` (spectra.py lines
319-335): when the direction is defined, normalise the coefficients by
the energy density, clamp the check factor at 2.55, and invalidate the
direction when any normalised coefficient leaves [-1, 1]. -/
noncomputable def bandStage2 (hasChk : Bool) (v : BandVals) : BandVals :=
  if v.dm ≠ -1 then
    let a1n := v.a1 / v.ed
    let b1n := v.b1 / v.ed
    let a2n := v.a2 / v.ed
    let b2n := v.b2 / v.ed
    let chkn := if hasChk then
        (if v.chk / v.ed > 2.55 then 2.55 else v.chk / v.ed)
      else v.chk
    let maxC := max (max a1n b1n) (max a2n b2n)
    let minC := min (min a1n b1n) (min a2n b2n)
    ⟨v.ed, if maxC > 1 ∨ minC < -1 then -1 else v.dm,
      a1n, b1n, a2n, b2n, chkn⟩
  else v

/-- The completed accumulator of target bin i. -/
noncomputable def bandAcc (src : SpecRecord) (tFreq tBw : List ℝ) (i : Nat) :
    BandAcc :=
  (List.range src.freq.length).foldl
    (bandStep src src.check.isSome (cutLo tFreq tBw i) (cutHi tFreq tBw i))
    ⟨0, 0, 0, 0, 0, 0, 0, 0, false⟩

/-- The finished values of target bin i. -/
noncomputable def bandOut (src : SpecRecord) (tFreq tBw : List ℝ) (i : Nat) :
    BandVals :=
  bandStage2 src.check.isSome (bandStage1 (tBw.getD i 0) (bandAcc src tFreq tBw i))

/-- Model of `Spectrum.redistribute_sp` (spectra.py lines 227-337):
redistribute a spectral record onto the target band layout given by
`tFreq`/`tBw` bin by bin. -/
noncomputable def redistribute (src : SpecRecord) (tFreq tBw : List ℝ) :
    SpecRecord :=
  let outs := (List.range tFreq.length).map (bandOut src tFreq tBw)
  { wTime := src.wTime, freq := tFreq, bandwidth := tBw,
    ener_dens := outs.map (·.ed), dMean := outs.map (·.dm),
    a1 := outs.map (·.a1), b1 := outs.map (·.b1),
    a2 := outs.map (·.a2), b2 := outs.map (·.b2),
    check := if src.check.isSome then some (outs.map (·.chk)) else none }

/-- Total energy `sum(energyDensity[j] * bandwidth[j])` of a spectral
record over its bands. -/
def totalEnergy (r : SpecRecord) : ℝ :=
  ((List.range r.freq.length).map
    (fun j => r.ener_dens.getD j 0 * r.bandwidth.getD j 0)).sum

/-- One accumulation step adds exactly the source energy density times
the clipped overlap width (the zero-energy guard adds zero either way). -/
theorem bandStep_e (src : SpecRecord) (hc : Bool) (rBot rTop : ℝ)
    (A : BandAcc) (j : Nat) :
    (bandStep src hc rBot rTop A j).e = A.e + src.ener_dens.getD j 0 *
      overlapW rBot rTop (cutLo src.freq src.bandwidth j)
        (cutHi src.freq src.bandwidth j) := by
  unfold bandStep overlapW
  by_cases hbt : (if rBot ≥ cutLo src.freq src.bandwidth j then rBot
      else cutLo src.freq src.bandwidth j) <
      (if rTop ≤ cutHi src.freq src.bandwidth j then rTop
      else cutHi src.freq src.bandwidth j)
  · rw [if_pos hbt, if_pos hbt]
    by_cases hc0 : src.ener_dens.getD j 0 *
        ((if rTop ≤ cutHi src.freq src.bandwidth j then rTop
          else cutHi src.freq src.bandwidth j) -
         (if rBot ≥ cutLo src.freq src.bandwidth j then rBot
          else cutLo src.freq src.bandwidth j)) ≠ 0
    · rw [if_pos hc0]
      by_cases hdm : src.dMean.getD j 0 = -1
      · rw [if_pos hdm]
      · rw [if_neg hdm]
    · rw [if_neg hc0]
      push_neg at hc0
      rw [hc0]
      ring
  · rw [if_neg hbt, if_neg hbt]
    ring

/-- The second stage never changes the energy density. -/
theorem bandStage2_ed (hc : Bool) (v : BandVals) :
    (bandStage2 hc v).ed = v.ed := by
  unfold bandStage2
  split_ifs <;> rfl

/-- With a non-zero bin bandwidth and non-negative accumulated energy,
the finished energy density times the bandwidth recovers the
accumulated energy. -/
theorem bandStage1_ed_mul {bw : ℝ} {A : BandAcc} (hbw : bw ≠ 0)
    (he : 0 ≤ A.e) : (bandStage1 bw A).ed * bw = A.e := by
  unfold bandStage1
  split_ifs with h1 h2
  · show A.e / bw * bw = A.e
    exact div_mul_cancel₀ _ hbw
  · show A.e / bw * bw = A.e
    exact div_mul_cancel₀ _ hbw
  · show A.e * bw = A.e
    have : A.e = 0 := le_antisymm (le_of_not_lt h1) he
    rw [this, zero_mul]

/-- The accumulated energy of the fold is the sum of the per-band
contributions. -/
theorem foldl_bandStep_e (src : SpecRecord) (hc : Bool) (rBot rTop : ℝ)
    (A : BandAcc) (n : Nat) :
    ((List.range n).foldl (bandStep src hc rBot rTop) A).e
      = A.e + ((List.range n).map (fun j => src.ener_dens.getD j 0 *
          overlapW rBot rTop (cutLo src.freq src.bandwidth j)
            (cutHi src.freq src.bandwidth j))).sum := by
  induction n with
  | zero => simp
  | succ m ih =>
    rw [List.range_succ, List.foldl_append, List.map_append, List.sum_append]
    simp only [List.foldl_cons, List.foldl_nil, List.map_cons, List.map_nil,
      List.sum_cons, List.sum_nil]
    rw [bandStep_e, ih]
    ring

/-- The accumulated energy of target bin i, in closed form. -/
theorem bandAcc_e (src : SpecRecord) (tFreq tBw : List ℝ) (i : Nat) :
    (bandAcc src tFreq tBw i).e
      = ((List.range src.freq.length).map (fun j =>
          src.ener_dens.getD j 0 *
            overlapW (cutLo tFreq tBw i) (cutHi tFreq tBw i)
              (cutLo src.freq src.bandwidth j)
              (cutHi src.freq src.bandwidth j))).sum := by
  unfold bandAcc
  rw [foldl_bandStep_e]
  simp

/-- Clipped overlap widths are never negative. -/
theorem overlapW_nonneg (rBot rTop oBot oTop : ℝ) :
    0 ≤ overlapW rBot rTop oBot oTop := by
  unfold overlapW
  dsimp only
  split_ifs <;> linarith

/-- Sums over `List.range` agree with `Finset.range` sums. -/
theorem sum_map_range_eq (f : Nat → ℝ) (n : Nat) :
    ((List.range n).map f).sum = ∑ i ∈ Finset.range n, f i := by
  induction n with
  | zero => simp
  | succ m ih =>
    rw [List.range_succ, List.map_append, List.sum_append,
      Finset.sum_range_succ, ih]
    simp

/-- Elements produced by mapping over `List.range`. -/
theorem getD_map_range {β : Type} [Inhabited β] (g : Nat → β) {n i : Nat}
    (h : i < n) (d : β) : ((List.range n).map g).getD i d = g i := by
  rw [List.getD_eq_getElem _ _ (by simpa using h), List.getElem_map,
    List.getElem_range]

/-- C1 (amended): spectral redistribution conserves total energy for
exactly those layout pairs where every source band interval is covered
(up to total length) by the target bins, i.e. for each source band the
positive clipped overlaps with the target bins sum to the full source
bandwidth (as when 64-band spectra are redistributed onto the refining
100-band layout); non-negative source densities and non-zero target
bandwidths are assumed. -/
theorem redistribute_conserves_energy (src : SpecRecord) (tFreq tBw : List ℝ)
    (hbw : ∀ i, i < tFreq.length → tBw.getD i 0 ≠ 0)
    (hen : ∀ j, j < src.freq.length → 0 ≤ src.ener_dens.getD j 0)
    (hcover : ∀ j, j < src.freq.length →
      ((List.range tFreq.length).map (fun i =>
        overlapW (cutLo tFreq tBw i) (cutHi tFreq tBw i)
          (cutLo src.freq src.bandwidth j)
          (cutHi src.freq src.bandwidth j))).sum = src.bandwidth.getD j 0) :
    totalEnergy (redistribute src tFreq tBw) = totalEnergy src := by
  have hstep1 : totalEnergy (redistribute src tFreq tBw)
      = ∑ i ∈ Finset.range tFreq.length,
          (bandOut src tFreq tBw i).ed * tBw.getD i 0 := by
    unfold totalEnergy redistribute
    dsimp only
    rw [sum_map_range_eq]
    apply Finset.sum_congr rfl
    intro i hi
    rw [List.map_map, getD_map_range _ (Finset.mem_range.1 hi)]
    rfl
  have hstep2 : ∀ i ∈ Finset.range tFreq.length,
      (bandOut src tFreq tBw i).ed * tBw.getD i 0
        = (bandAcc src tFreq tBw i).e := by
    intro i hi
    unfold bandOut
    rw [bandStage2_ed]
    apply bandStage1_ed_mul (hbw i (Finset.mem_range.1 hi))
    rw [bandAcc_e]
    apply List.sum_nonneg
    intro x hx
    obtain ⟨j, hj, rfl⟩ := List.mem_map.1 hx
    exact mul_nonneg (hen j (List.mem_range.1 hj)) (overlapW_nonneg _ _ _ _)
  calc totalEnergy (redistribute src tFreq tBw)
      = ∑ i ∈ Finset.range tFreq.length,
          (bandOut src tFreq tBw i).ed * tBw.getD i 0 := hstep1
    _ = ∑ i ∈ Finset.range tFreq.length, (bandAcc src tFreq tBw i).e :=
        Finset.sum_congr rfl hstep2
    _ = ∑ i ∈ Finset.range tFreq.length,
          ∑ j ∈ Finset.range src.freq.length,
            src.ener_dens.getD j 0 *
              overlapW (cutLo tFreq tBw i) (cutHi tFreq tBw i)
                (cutLo src.freq src.bandwidth j)
                (cutHi src.freq src.bandwidth j) := by
        apply Finset.sum_congr rfl
        intro i _
        rw [bandAcc_e, sum_map_range_eq]
    _ = ∑ j ∈ Finset.range src.freq.length,
          ∑ i ∈ Finset.range tFreq.length,
            src.ener_dens.getD j 0 *
              overlapW (cutLo tFreq tBw i) (cutHi tFreq tBw i)
                (cutLo src.freq src.bandwidth j)
                (cutHi src.freq src.bandwidth j) := Finset.sum_comm
    _ = ∑ j ∈ Finset.range src.freq.length,
          src.ener_dens.getD j 0 * src.bandwidth.getD j 0 := by
        apply Finset.sum_congr rfl
        intro j hj
        rw [← Finset.mul_sum, ← sum_map_range_eq,
          hcover j (Finset.mem_range.1 hj)]
    _ = totalEnergy src := by
        unfold totalEnergy
        rw [sum_map_range_eq]

/-- Counterexample to C1 as stated: a single-band source record over the
interval [0, 2] with energy density 1 redistributed onto a single target
bin over [9, 11] loses all its energy (no overlap), so total energy is
not conserved for an arbitrary source-to-target layout pair. -/
theorem redistribute_energy_cex :
    totalEnergy (redistribute
        (SpecRecord.mk 0 [1] [2] [1] [-1] [0] [0] [0] [0] none) [10] [2]) = 0 ∧
    totalEnergy (SpecRecord.mk 0 [1] [2] [1] [-1] [0] [0] [0] [0] none) = 2 := by
  constructor
  · norm_num [totalEnergy, redistribute, bandOut, bandAcc, bandStep,
      bandStage1, bandStage2, cutLo, cutHi, List.range_succ]
  · norm_num [totalEnergy, List.range_succ]

/-- Witness for C1 (amended): a one-band source over [0, 2] with density
3 redistributed onto the two covering bins [0, 1] and [1, 2] conserves
the total energy. -/
theorem redistribute_conserves_energy_witness :
    totalEnergy (redistribute
        (SpecRecord.mk 0 [1] [2] [3] [-1] [0] [0] [0] [0] none)
        [1/2, 3/2] [1, 1])
      = totalEnergy (SpecRecord.mk 0 [1] [2] [3] [-1] [0] [0] [0] [0] none) := by
  apply redistribute_conserves_energy
  · intro i hi
    simp only [List.length_cons, List.length_nil] at hi
    interval_cases i <;> norm_num
  · intro j hj
    simp only [List.length_cons, List.length_nil] at hj
    interval_cases j <;> norm_num
  · intro j hj
    simp only [List.length_cons, List.length_nil] at hj
    interval_cases j
    norm_num [overlapW, cutLo, cutHi, List.range_succ]

/-- The direction leaving stage 1 is the sentinel or lies in [0, 360). -/
theorem bandStage1_dm (bw : ℝ) (A : BandAcc) :
    (bandStage1 bw A).dm = -1 ∨
    (0 ≤ (bandStage1 bw A).dm ∧ (bandStage1 bw A).dm < 360) := by
  unfold bandStage1
  split_ifs with h1 h2
  · exact Or.inl rfl
  · exact Or.inr (pyAtan2Deg_mem _ _)
  · exact Or.inl rfl

/-- Stage 2 either keeps the direction or invalidates it. -/
theorem bandStage2_dm (hc : Bool) (v : BandVals) :
    (bandStage2 hc v).dm = -1 ∨ (bandStage2 hc v).dm = v.dm := by
  unfold bandStage2
  by_cases h1 : v.dm ≠ -1
  · rw [if_pos h1]
    dsimp only
    split
    · exact Or.inl rfl
    · exact Or.inr rfl
  · rw [if_neg h1]
    exact Or.inr rfl

/-- The values of band i of the redistributed record. -/
theorem redistribute_proj (src : SpecRecord) (tFreq tBw : List ℝ) {i : Nat}
    (hi : i < tFreq.length) :
    (redistribute src tFreq tBw).dMean.getD i (-1)
        = (bandOut src tFreq tBw i).dm ∧
    (redistribute src tFreq tBw).a1.getD i 0 = (bandOut src tFreq tBw i).a1 ∧
    (redistribute src tFreq tBw).b1.getD i 0 = (bandOut src tFreq tBw i).b1 ∧
    (redistribute src tFreq tBw).a2.getD i 0 = (bandOut src tFreq tBw i).a2 ∧
    (redistribute src tFreq tBw).b2.getD i 0 = (bandOut src tFreq tBw i).b2 ∧
    (src.check.isSome = true →
      ((redistribute src tFreq tBw).check.getD []).getD i 0
        = (bandOut src tFreq tBw i).chk) := by
  unfold redistribute
  dsimp only
  rw [List.map_map, List.map_map, List.map_map, List.map_map, List.map_map,
    List.map_map]
  refine ⟨getD_map_range _ hi _, getD_map_range _ hi _, getD_map_range _ hi _,
    getD_map_range _ hi _, getD_map_range _ hi _, ?_⟩
  intro hsome
  rw [if_pos hsome, Option.getD_some, getD_map_range _ hi _]
  rfl

/-- Helper: a value equal to one of four, with absolute value above 1,
pushes the four-way maximum above 1 or the minimum below -1. -/
theorem max4_of_abs {x a b c d : ℝ} (hx : x = a ∨ x = b ∨ x = c ∨ x = d)
    (h : 1 < |x|) :
    max (max a b) (max c d) > 1 ∨ min (min a b) (min c d) < -1 := by
  rcases lt_abs.1 h with h1 | h1
  · left
    rcases hx with rfl | rfl | rfl | rfl
    · exact lt_of_lt_of_le h1 (le_trans (le_max_left _ _) (le_max_left _ _))
    · exact lt_of_lt_of_le h1 (le_trans (le_max_right _ _) (le_max_left _ _))
    · exact lt_of_lt_of_le h1 (le_trans (le_max_left _ _) (le_max_right _ _))
    · exact lt_of_lt_of_le h1 (le_trans (le_max_right _ _) (le_max_right _ _))
  · right
    have h2 : x < -1 := by linarith
    rcases hx with rfl | rfl | rfl | rfl
    · exact lt_of_le_of_lt (le_trans (min_le_left _ _) (min_le_left _ _)) h2
    · exact lt_of_le_of_lt (le_trans (min_le_left _ _) (min_le_right _ _)) h2
    · exact lt_of_le_of_lt (le_trans (min_le_right _ _) (min_le_left _ _)) h2
    · exact lt_of_le_of_lt (le_trans (min_le_right _ _) (min_le_right _ _)) h2

/-- A band leaving stage 2 with any coefficient outside [-1, 1] has its
direction set to the undefined sentinel. -/
theorem bandStage2_coeff_dir (hc : Bool) (v : BandVals) :
    (1 < |(bandStage2 hc v).a1| ∨ 1 < |(bandStage2 hc v).b1| ∨
      1 < |(bandStage2 hc v).a2| ∨ 1 < |(bandStage2 hc v).b2|) →
    (bandStage2 hc v).dm = -1 := by
  unfold bandStage2
  by_cases h1 : v.dm ≠ -1
  · rw [if_pos h1]
    dsimp only
    intro hout
    split
    · rfl
    · next hcond =>
        exfalso
        apply hcond
        rcases hout with h | h | h | h
        · exact max4_of_abs (Or.inl rfl) h
        · exact max4_of_abs (Or.inr (Or.inl rfl)) h
        · exact max4_of_abs (Or.inr (Or.inr (Or.inl rfl))) h
        · exact max4_of_abs (Or.inr (Or.inr (Or.inr rfl))) h
  · rw [if_neg h1]
    intro _
    exact not_not.1 h1

/-- With the check factor present and a defined direction, stage 2
normalises the check factor by the energy density and clamps it. -/
theorem bandStage2_chk_true (v : BandVals) (h1 : v.dm ≠ -1) :
    (bandStage2 true v).chk
      = if v.chk / v.ed > 2.55 then 2.55 else v.chk / v.ed := by
  unfold bandStage2
  rw [if_pos h1]
  dsimp only
  rw [if_pos rfl]

/-- A band with positive accumulated energy and no undefined contributing
direction reaches normalisation and has its check factor clamped. -/
theorem band_chk_clamped {bw : ℝ} {A : BandAcc} (hA : 0 < A.e)
    (hm : A.missDir = false) :
    (bandStage2 true (bandStage1 bw A)).chk ≤ 2.55 := by
  have hstage1 : bandStage1 bw A =
      ⟨A.e / bw, pyAtan2Deg (A.sinS / (A.e / bw)) (A.cosS / (A.e / bw)),
        A.a1 / bw, A.b1 / bw, A.a2 / bw, A.b2 / bw, A.chk / bw⟩ := by
    unfold bandStage1
    rw [if_pos hA, hm]
    simp
  rw [hstage1, bandStage2_chk_true _ (pyAtan2Deg_ne_neg_one _ _)]
  split_ifs with h
  · norm_num
  · exact le_of_not_lt h

/-- C8 (amended): every band of a redistributed record carries a mean
direction that is either the undefined sentinel -1 or lies in [0, 360);
a band any of whose returned a1, b1, a2, b2 coefficients lies outside
[-1, 1] ends with direction -1 rather than raising; and the check factor
of a band that reached normalisation (positive accumulated energy and no
contributing band with undefined direction) is clamped to at most 2.55 —
bands that never reach normalisation keep their raw accumulated check
factor, which the clamp does not bound. -/
theorem redistribute_direction_spec (src : SpecRecord) (tFreq tBw : List ℝ)
    (i : Nat) :
    ((redistribute src tFreq tBw).dMean.getD i (-1) = -1 ∨
      (0 ≤ (redistribute src tFreq tBw).dMean.getD i (-1) ∧
        (redistribute src tFreq tBw).dMean.getD i (-1) < 360)) ∧
    ((1 < |(redistribute src tFreq tBw).a1.getD i 0| ∨
      1 < |(redistribute src tFreq tBw).b1.getD i 0| ∨
      1 < |(redistribute src tFreq tBw).a2.getD i 0| ∨
      1 < |(redistribute src tFreq tBw).b2.getD i 0|) →
      (redistribute src tFreq tBw).dMean.getD i (-1) = -1) ∧
    (src.check.isSome = true → 0 < (bandAcc src tFreq tBw i).e →
      (bandAcc src tFreq tBw i).missDir = false →
      ((redistribute src tFreq tBw).check.getD []).getD i 0 ≤ 2.55) := by
  by_cases hi : i < tFreq.length
  · obtain ⟨hdm, ha1, hb1, ha2, hb2, hchk⟩ := redistribute_proj src tFreq tBw hi
    refine ⟨?_, ?_, ?_⟩
    · rw [hdm]
      rcases bandStage2_dm src.check.isSome
          (bandStage1 (tBw.getD i 0) (bandAcc src tFreq tBw i)) with h | h
      · exact Or.inl h
      · unfold bandOut
        rw [h]
        exact bandStage1_dm _ _
    · rw [hdm, ha1, hb1, ha2, hb2]
      exact bandStage2_coeff_dir _ _
    · intro hsome hA hm
      rw [hchk hsome]
      unfold bandOut
      rw [hsome]
      exact band_chk_clamped hA hm
  · have hlen : tFreq.length ≤ i := le_of_not_lt hi
    have hdml : (redistribute src tFreq tBw).dMean.length = tFreq.length := by
      unfold redistribute
      simp
    have hdm : (redistribute src tFreq tBw).dMean.getD i (-1) = -1 := by
      rw [List.getD_eq_default]
      rw [hdml]
      exact hlen
    refine ⟨Or.inl hdm, fun _ => hdm, ?_⟩
    intro hsome _ _
    have hcl : ((redistribute src tFreq tBw).check.getD []).length
        = tFreq.length := by
      unfold redistribute
      dsimp only
      rw [if_pos hsome, Option.getD_some]
      simp
    rw [List.getD_eq_default]
    · norm_num
    · rw [hcl]
      exact hlen

/-- Counterexample to C8 as stated: a source record with check factors
present whose two bands [0, 2] (direction 0, check 10) and [2, 4]
(direction -1) both fall into the single target bin [0, 4]: the bin's
direction is undefined, so normalisation is skipped and the returned
check factor is the raw accumulated 20, far above the claimed 2.55
ceiling. -/
theorem redistribute_check_cex :
    ((redistribute (SpecRecord.mk 0 [1, 3] [2, 2] [1, 1] [0, -1]
        [0, 0] [0, 0] [0, 0] [0, 0] (some [10, 0])) [2] [4]).check.getD
      []).getD 0 0 = 20 ∧
    ¬ (((redistribute (SpecRecord.mk 0 [1, 3] [2, 2] [1, 1] [0, -1]
        [0, 0] [0, 0] [0, 0] [0, 0] (some [10, 0])) [2] [4]).check.getD
      []).getD 0 0 ≤ 2.55) := by
  have h : ((redistribute (SpecRecord.mk 0 [1, 3] [2, 2] [1, 1] [0, -1]
      [0, 0] [0, 0] [0, 0] [0, 0] (some [10, 0])) [2] [4]).check.getD
      []).getD 0 0 = 20 := by
    norm_num [redistribute, bandOut, bandAcc, bandStep, bandStage1,
      bandStage2, cutLo, cutHi, List.range_succ]
  refine ⟨h, by rw [h]; norm_num⟩

/-- Witness for C8 (amended) at a concrete one-band record whose a1
coefficient normalises to 5: the theorem gives direction -1 for that
band and a clamped check factor. -/
theorem redistribute_direction_spec_witness :
    (redistribute (SpecRecord.mk 0 [1] [2] [1] [90] [5] [0] [0] [0]
        (some [1])) [1] [2]).dMean.getD 0 (-1) = -1 ∧
    ((redistribute (SpecRecord.mk 0 [1] [2] [1] [90] [5] [0] [0] [0]
        (some [1])) [1] [2]).check.getD []).getD 0 0 ≤ 2.55 := by
  have h := redistribute_direction_spec (SpecRecord.mk 0 [1] [2] [1] [90]
    [5] [0] [0] [0] (some [1])) [1] [2] 0
  refine ⟨h.2.1 (Or.inl ?_), h.2.2 rfl ?_ ?_⟩
  · have ha : (redistribute (SpecRecord.mk 0 [1] [2] [1] [90] [5] [0] [0] [0]
        (some [1])) [1] [2]).a1.getD 0 0 = 5 := by
      norm_num [redistribute, bandOut, bandAcc, bandStep, bandStage1,
        bandStage2, cutLo, cutHi, List.range_succ, pyAtan2Deg_ne_neg_one]
    rw [ha]
    norm_num
  · norm_num [bandAcc, bandStep, cutLo, cutHi, List.range_succ]
  · norm_num [bandAcc, bandStep, cutLo, cutHi, List.range_succ]

end CDIP

namespace CDIP

/-- Frequencies of the `Spectrum_64band` layout (spectra.py lines 343-408). -/
noncomputable def freq64 : List ℝ := [0.025, 0.03, 0.035, 0.04, 0.045, 0.05, 0.055, 0.06, 0.065, 0.07, 0.075, 0.08, 0.085, 0.09, 0.095, 0.10125, 0.11, 0.12, 0.13, 0.14, 0.15, 0.16, 0.17, 0.18, 0.19, 0.2, 0.21, 0.22, 0.23, 0.24, 0.25, 0.26, 0.27, 0.28, 0.29, 0.3, 0.31, 0.32, 0.33, 0.34, 0.35, 0.36, 0.37, 0.38, 0.39, 0.4, 0.41, 0.42, 0.43, 0.44, 0.45, 0.46, 0.47, 0.48, 0.49, 0.5, 0.51, 0.52, 0.53, 0.54, 0.55, 0.56, 0.57, 0.58]

noncomputable def bw64 : List ℝ := [0.005, 0.005, 0.005, 0.005, 0.005, 0.005, 0.005, 0.005, 0.005, 0.005, 0.005, 0.005, 0.005, 0.005, 0.005, 0.0075, 0.01, 0.01, 0.01, 0.01, 0.01, 0.01, 0.01, 0.01, 0.01, 0.01, 0.01, 0.01, 0.01, 0.01, 0.01, 0.01, 0.01, 0.01, 0.01, 0.01, 0.01, 0.01, 0.01, 0.01, 0.01, 0.01, 0.01, 0.01, 0.01, 0.01, 0.01, 0.01, 0.01, 0.01, 0.01, 0.01, 0.01, 0.01, 0.01, 0.01, 0.01, 0.01, 0.01, 0.01, 0.01, 0.01, 0.01, 0.01]

noncomputable def freq9 : List ℝ := [0.0352, 0.0505, 0.059, 0.067, 0.0774, 0.0917, 0.1125, 0.1458, 0.3333]

noncomputable def bw9 : List ℝ := [0.0205, 0.0101, 0.0069, 0.0089, 0.0119, 0.0167, 0.025, 0.0417, 0.3333]

noncomputable def freq100 : List ℝ := [0.025, 0.03, 0.035, 0.04, 0.045, 0.05, 0.055, 0.06, 0.065, 0.07, 0.075, 0.08, 0.085, 0.09, 0.095, 0.1, 0.105, 0.11, 0.115, 0.12, 0.125, 0.13, 0.135, 0.14, 0.145, 0.15, 0.155, 0.16, 0.165, 0.17, 0.175, 0.18, 0.185, 0.19, 0.195, 0.2, 0.205, 0.21, 0.215, 0.22, 0.225, 0.23, 0.235, 0.24, 0.245, 0.25125, 0.26, 0.27, 0.28, 0.29, 0.3, 0.31, 0.32, 0.33, 0.34, 0.35, 0.36, 0.37, 0.38, 0.39, 0.4, 0.41, 0.42, 0.43, 0.44, 0.45, 0.46, 0.47, 0.48, 0.49, 0.5, 0.51, 0.52, 0.53, 0.54, 0.55, 0.56, 0.57, 0.5825, 0.6, 0.62, 0.64, 0.66, 0.68, 0.7, 0.72, 0.74, 0.76, 0.78, 0.8, 0.82, 0.84, 0.86, 0.88, 0.9, 0.92, 0.94, 0.96, 0.98, 1.0]

noncomputable def bw100 : List ℝ := [0.005, 0.005, 0.005, 0.005, 0.005, 0.005, 0.005, 0.005, 0.005, 0.005, 0.005, 0.005, 0.005, 0.005, 0.005, 0.005, 0.005, 0.005, 0.005, 0.005, 0.005, 0.005, 0.005, 0.005, 0.005, 0.005, 0.005, 0.005, 0.005, 0.005, 0.005, 0.005, 0.005, 0.005, 0.005, 0.005, 0.005, 0.005, 0.005, 0.005, 0.005, 0.005, 0.005, 0.005, 0.005, 0.0075, 0.01, 0.01, 0.01, 0.01, 0.01, 0.01, 0.01, 0.01, 0.01, 0.01, 0.01, 0.01, 0.01, 0.01, 0.01, 0.01, 0.01, 0.01, 0.01, 0.01, 0.01, 0.01, 0.01, 0.01, 0.01, 0.01, 0.01, 0.01, 0.01, 0.01, 0.01, 0.01, 0.015, 0.02, 0.02, 0.02, 0.02, 0.02, 0.02, 0.02, 0.02, 0.02, 0.02, 0.02, 0.02, 0.02, 0.02, 0.02, 0.02, 0.02, 0.02, 0.02, 0.02, 0.02]

/-- Frequencies of the `Spectrum_128band` layout: `set_FreqBands(0.00390625, 128)`. -/
noncomputable def freq128 : List ℝ :=
  (List.range 128).map (fun k => ((k + 1 : ℕ) : ℝ) * 0.00390625)

/-- Bandwidths of the `Spectrum_128band` layout. -/
noncomputable def bw128 : List ℝ := List.replicate 128 0.00390625

/-- The spectral-variable names (`StnData.spectrum_vars`). -/
def spectrumVars : List String :=
  ["waveEnergyDensity", "waveMeanDirection", "waveA1Value", "waveB1Value",
   "waveA2Value", "waveB2Value", "waveCheckFactor"]

/-- Model of `Spectra.whichSpecClass`: the registry of named band
layouts keyed by band count, in `Spectrum.__subclasses__()` definition
order (64, 9, 100, 128, custom-with-empty-default). -/
noncomputable def whichSpecLayout (n : Nat) : Option (List ℝ × List ℝ) :=
  (([(64, (freq64, bw64)), (9, (freq9, bw9)), (100, (freq100, bw100)),
    (128, (freq128, bw128)), (0, (([] : List ℝ), ([] : List ℝ)))].find?
      (fun p => p.1 = n))).map (fun p => p.2)

/-- Look up a 1-dimensional variable. -/
def getOne {α : Type} (d : Dict α) (k : String) : Option (List α) :=
  match List.lookup k d with
  | some (Val.one l) => some l
  | _ => none

/-- Look up a 2-dimensional variable. -/
def getTwo {α : Type} (d : Dict α) (k : String) : Option (List (List α)) :=
  match List.lookup k d with
  | some (Val.two m) => some m
  | _ => none

/-- Model of the `Spectra` round trip used inside
`StnData.__aggregate_dicts`: `set_spectrumArr_fromQuery`,
`redist_specArr("Spectrum_64band")`, `specArr_ToDict` (spectra.py lines
65-132). Each record is rebuilt from the dictionary, its layout resolved
from the registry by the inner dimension of `waveEnergyDensity`, every
record redistributed to the 64-band layout, and the per-variable
matrices reassembled. Returns `none` where Python would raise (missing
variable, non-2-d spectral variable, unknown band count). -/
noncomputable def redistributeDictTo64 (d : Dict ℝ) : Option (Dict ℝ) :=
  match getOne d "waveTime", getTwo d "waveEnergyDensity",
      getTwo d "waveMeanDirection", getTwo d "waveA1Value",
      getTwo d "waveB1Value", getTwo d "waveA2Value",
      getTwo d "waveB2Value" with
  | some times, some ed, some md, some a1, some b1, some a2, some b2 =>
    match whichSpecLayout (ed.headD []).length with
    | none => none
    | some (sfreq, sbw) =>
      let chk := getTwo d "waveCheckFactor"
      let recs := (List.range times.length).map (fun e =>
        redistribute
          (SpecRecord.mk (times.getD e 0) sfreq sbw (ed.getD e [])
            (md.getD e []) (a1.getD e []) (b1.getD e []) (a2.getD e [])
            (b2.getD e []) (chk.map (fun c => c.getD e []))) freq64 bw64)
      some ([("waveTime", Val.one (recs.map (fun r => r.wTime))),
        ("waveEnergyDensity", Val.two (recs.map (fun r => r.ener_dens))),
        ("waveMeanDirection", Val.two (recs.map (fun r => r.dMean))),
        ("waveA1Value", Val.two (recs.map (fun r => r.a1))),
        ("waveA2Value", Val.two (recs.map (fun r => r.a2))),
        ("waveB1Value", Val.two (recs.map (fun r => r.b1))),
        ("waveB2Value", Val.two (recs.map (fun r => r.b2)))] ++
        (if chk.isSome then
          [("waveCheckFactor",
            Val.two (recs.map (fun r => r.check.getD [])))]
        else []))
  | _, _, _, _, _, _, _ => none

/-- Replace, in `d`, every spectral variable it holds by the
corresponding redistributed array (`dicts[i][v] = redistributed_dict[v]`
in `__aggregate_dicts`). The fallback arm is unreachable: the
redistributed dictionary holds every spectral variable that `d` holds. -/
def replaceSpectralVars (d rd : Dict ℝ) : Dict ℝ :=
  d.map (fun kv =>
    if kv.1 ∈ spectrumVars then
      match List.lookup kv.1 rd with
      | some v => (kv.1, v)
      | none => kv
    else kv)

/-- Model of `np.ma.concatenate([v1, v2])` for rank-matched arrays;
`none` models the numpy error on mismatched ranks. -/
def concatVal {α : Type} : Val α → Val α → Option (Val α)
  | Val.one l1, Val.one l2 => some (Val.one (l1 ++ l2))
  | Val.two m1, Val.two m2 => some (Val.two (m1 ++ m2))
  | _, _ => none

/-- Model of `dict[key].shape[1] if key in dict else 0`; shape[1] of a
1-dimensional array raises in numpy, hence `none`. -/
def dictShape1 {α : Type} (d : Dict α) (key : String) : Option Nat :=
  match List.lookup key d with
  | none => some 0
  | some (Val.two m) => some (m.headD []).length
  | some (Val.one _) => none

/-- Concatenation step of `__aggregate_dicts`: for every key of the
union, concatenate when both sides hold it (dict1 first - oldest data),
else take the single side that does. -/
def buildConcat {α : Type} (e1 e2 : Dict α) : List String → Option (Dict α)
  | [] => some []
  | k :: ks =>
    match buildConcat e1 e2 ks with
    | none => none
    | some rest =>
      match List.lookup k e1, List.lookup k e2 with
      | some v1, some v2 => (concatVal v1 v2).map (fun v => (k, v) :: rest)
      | none, some v2 => some ((k, v2) :: rest)
      | some v1, none => some ((k, v1) :: rest)
      | none, none => none

/-- Key-set union of the two dictionaries, in first-seen order (Python
iterates a set here, whose order is unspecified). -/
def unionKeys {α : Type} (d1 d2 : Dict α) : List String :=
  d1.map Prod.fst ++
    (d2.map Prod.fst).filter (fun k => decide (¬ k ∈ d1.map Prod.fst))

/-- `svars = set(self.spectrum_vars) & ukeys` (stndata.py line 308): the
spectral variables present in either dictionary. -/
def presentSpectrumVars {α : Type} (d1 d2 : Dict α) : List String :=
  spectrumVars.filter (fun v => v ∈ unionKeys d1 d2)

/-- Band-normalisation step of `StnData.__aggregate_dicts` (stndata.py
lines 310-325) for a given probe key: read the two inner dimensions
(`shape = dict_i[key].shape[1] if key in dict_i else 0`) and
redistribute any side with 100 bands to the 64-band layout when the
other side has 64 bands or the force flag is set. The probe key
`key = next(iter(svars))` retrieves an arbitrary element of a Python
set, so it is passed in as a parameter here: any member of
`presentSpectrumVars` is a legal pick. -/
noncomputable def aggregateStep1 (force64 : Bool) (d1 d2 : Dict ℝ)
    (key : String) : Option (Dict ℝ × Dict ℝ) :=
  match dictShape1 d1 key, dictShape1 d2 key with
  | some shape1, some shape2 =>
    if (shape1 = 100 ∨ shape2 = 100) ∧
        (force64 = true ∨ shape1 = 64 ∨ shape2 = 64) then
      match (if shape1 = 100 then
          (redistributeDictTo64 d1).map (replaceSpectralVars d1)
        else some d1),
        (if shape2 = 100 then
          (redistributeDictTo64 d2).map (replaceSpectralVars d2)
        else some d2) with
      | some x, some y => some (x, y)
      | _, _ => none
    else some (d1, d2)
  | _, _ => none

/-- Model of `StnData.__aggregate_dicts` (stndata.py lines 297-335):
when some spectral variable is present (`len(svars) != 0`), probe the
supplied pick - one arbitrary element of that set - and normalise the
band layouts, then concatenate key by key with dict1 (the older data)
first. When no spectral variable is present the pick is never read. -/
noncomputable def aggregateDicts (force64 : Bool) (d1 d2 : Dict ℝ)
    (pick : String) : Option (Dict ℝ) :=
  if presentSpectrumVars d1 d2 = [] then
    buildConcat d1 d2 (unionKeys d1 d2)
  else
    match aggregateStep1 force64 d1 d2 pick with
    | none => none
    | some (e1, e2) => buildConcat e1 e2 (unionKeys d1 d2)

end CDIP

namespace CDIP

/-- Rank of a value: True for 1-dimensional arrays. -/
def Val.isOne {α : Type} : Val α → Bool
  | Val.one _ => true
  | Val.two _ => false

/-- Every per-band output array of a redistributed record is as long as
the target frequency layout. -/
theorem redistribute_lens (src : SpecRecord) (f b : List ℝ) :
    (redistribute src f b).ener_dens.length = f.length ∧
    (redistribute src f b).dMean.length = f.length ∧
    (redistribute src f b).a1.length = f.length ∧
    (redistribute src f b).b1.length = f.length ∧
    (redistribute src f b).a2.length = f.length ∧
    (redistribute src f b).b2.length = f.length ∧
    (src.check.isSome = true →
      ((redistribute src f b).check.getD []).length = f.length) := by
  refine ⟨?_, ?_, ?_, ?_, ?_, ?_, ?_⟩ <;>
    simp [redistribute]
  intro hsome
  rw [if_pos hsome, Option.getD_some]
  simp

/-- The 64-band layout has 64 bands. -/
theorem freq64_length : freq64.length = 64 := rfl

/-- The 100-band registry entry resolves. -/
theorem whichSpecLayout_100 : whichSpecLayout 100 = some (freq100, bw100) := by
  rfl

end CDIP

namespace CDIP

/-- The redistributed-to-64-bands dictionary exists as soon as all the
required inputs are present and the band count is registered; every
spectral variable it holds is a 2-dimensional array whose rows all have
64 entries, and it holds every spectral variable held (2-dimensionally)
by the input dictionary. -/
theorem redistributeDictTo64_spec (d : Dict ℝ) (t1 : List ℝ)
    (m1 : List (List ℝ))
    (hT : getOne d "waveTime" = some t1)
    (hED : getTwo d "waveEnergyDensity" = some m1)
    (hMD : (getTwo d "waveMeanDirection").isSome = true)
    (hA1 : (getTwo d "waveA1Value").isSome = true)
    (hB1 : (getTwo d "waveB1Value").isSome = true)
    (hA2 : (getTwo d "waveA2Value").isSome = true)
    (hB2 : (getTwo d "waveB2Value").isSome = true)
    (hlay : (whichSpecLayout (m1.headD []).length).isSome = true) :
    ∃ rd, redistributeDictTo64 d = some rd ∧
      (∀ k ∈ spectrumVars, ∀ v, List.lookup k rd = some v →
        ∃ m, v = Val.two m ∧ ∀ row ∈ m, row.length = 64) ∧
      (∀ k ∈ spectrumVars, (getTwo d k).isSome = true →
        (List.lookup k rd).isSome = true) := by
  obtain ⟨md, hMD'⟩ := Option.isSome_iff_exists.1 hMD
  obtain ⟨a1m, hA1'⟩ := Option.isSome_iff_exists.1 hA1
  obtain ⟨b1m, hB1'⟩ := Option.isSome_iff_exists.1 hB1
  obtain ⟨a2m, hA2'⟩ := Option.isSome_iff_exists.1 hA2
  obtain ⟨b2m, hB2'⟩ := Option.isSome_iff_exists.1 hB2
  obtain ⟨⟨sf, sb⟩, hlay'⟩ := Option.isSome_iff_exists.1 hlay
  unfold redistributeDictTo64
  rw [hT, hED, hMD', hA1', hB1', hA2', hB2']
  dsimp only
  rw [hlay']
  dsimp only
  refine ⟨_, rfl, ?_, ?_⟩
  · intro k hk v hv
    rw [List.lookup_append] at hv
    fin_cases hk
    · -- waveEnergyDensity
      simp only [List.lookup, show (("waveEnergyDensity" == "waveTime")) = false
        from rfl, show (("waveEnergyDensity" == "waveEnergyDensity")) = true
        from rfl] at hv
      simp only [Option.or] at hv
      refine ⟨_, (Option.some.inj hv).symm, ?_⟩
      intro row hrow
      rw [List.map_map] at hrow
      obtain ⟨e, _, hre⟩ := List.mem_map.1 hrow
      rw [← hre]
      dsimp only [Function.comp]
      rw [(redistribute_lens _ _ _).1, freq64_length]
    · -- waveMeanDirection
      simp only [List.lookup, show (("waveMeanDirection" == "waveTime")) = false
        from rfl,
        show (("waveMeanDirection" == "waveEnergyDensity")) = false from rfl,
        show (("waveMeanDirection" == "waveMeanDirection")) = true from rfl]
        at hv
      simp only [Option.or] at hv
      refine ⟨_, (Option.some.inj hv).symm, ?_⟩
      intro row hrow
      rw [List.map_map] at hrow
      obtain ⟨e, _, hre⟩ := List.mem_map.1 hrow
      rw [← hre]
      dsimp only [Function.comp]
      rw [(redistribute_lens _ _ _).2.1, freq64_length]
    · -- waveA1Value
      simp only [List.lookup, show (("waveA1Value" == "waveTime")) = false
        from rfl,
        show (("waveA1Value" == "waveEnergyDensity")) = false from rfl,
        show (("waveA1Value" == "waveMeanDirection")) = false from rfl,
        show (("waveA1Value" == "waveA1Value")) = true from rfl] at hv
      simp only [Option.or] at hv
      refine ⟨_, (Option.some.inj hv).symm, ?_⟩
      intro row hrow
      rw [List.map_map] at hrow
      obtain ⟨e, _, hre⟩ := List.mem_map.1 hrow
      rw [← hre]
      dsimp only [Function.comp]
      rw [(redistribute_lens _ _ _).2.2.1, freq64_length]
    · -- waveB1Value
      simp only [List.lookup, show (("waveB1Value" == "waveTime")) = false
        from rfl,
        show (("waveB1Value" == "waveEnergyDensity")) = false from rfl,
        show (("waveB1Value" == "waveMeanDirection")) = false from rfl,
        show (("waveB1Value" == "waveA1Value")) = false from rfl,
        show (("waveB1Value" == "waveA2Value")) = false from rfl,
        show (("waveB1Value" == "waveB1Value")) = true from rfl] at hv
      simp only [Option.or] at hv
      refine ⟨_, (Option.some.inj hv).symm, ?_⟩
      intro row hrow
      rw [List.map_map] at hrow
      obtain ⟨e, _, hre⟩ := List.mem_map.1 hrow
      rw [← hre]
      dsimp only [Function.comp]
      rw [(redistribute_lens _ _ _).2.2.2.1, freq64_length]
    · -- waveA2Value
      simp only [List.lookup, show (("waveA2Value" == "waveTime")) = false
        from rfl,
        show (("waveA2Value" == "waveEnergyDensity")) = false from rfl,
        show (("waveA2Value" == "waveMeanDirection")) = false from rfl,
        show (("waveA2Value" == "waveA1Value")) = false from rfl,
        show (("waveA2Value" == "waveA2Value")) = true from rfl] at hv
      simp only [Option.or] at hv
      refine ⟨_, (Option.some.inj hv).symm, ?_⟩
      intro row hrow
      rw [List.map_map] at hrow
      obtain ⟨e, _, hre⟩ := List.mem_map.1 hrow
      rw [← hre]
      dsimp only [Function.comp]
      rw [(redistribute_lens _ _ _).2.2.2.2.1, freq64_length]
    · -- waveB2Value
      simp only [List.lookup, show (("waveB2Value" == "waveTime")) = false
        from rfl,
        show (("waveB2Value" == "waveEnergyDensity")) = false from rfl,
        show (("waveB2Value" == "waveMeanDirection")) = false from rfl,
        show (("waveB2Value" == "waveA1Value")) = false from rfl,
        show (("waveB2Value" == "waveA2Value")) = false from rfl,
        show (("waveB2Value" == "waveB1Value")) = false from rfl,
        show (("waveB2Value" == "waveB2Value")) = true from rfl] at hv
      simp only [Option.or] at hv
      refine ⟨_, (Option.some.inj hv).symm, ?_⟩
      intro row hrow
      rw [List.map_map] at hrow
      obtain ⟨e, _, hre⟩ := List.mem_map.1 hrow
      rw [← hre]
      dsimp only [Function.comp]
      rw [(redistribute_lens _ _ _).2.2.2.2.2.1, freq64_length]
    · -- waveCheckFactor
      cases hc : getTwo d "waveCheckFactor" with
      | none =>
          rw [hc] at hv
          rw [if_neg (by simp)] at hv
          exact absurd hv (by simp [List.lookup])
      | some c =>
          rw [hc] at hv
          rw [if_pos (Option.isSome_some)] at hv
          simp only [List.lookup,
            show (("waveCheckFactor" == "waveTime")) = false from rfl,
            show (("waveCheckFactor" == "waveEnergyDensity")) = false from rfl,
            show (("waveCheckFactor" == "waveMeanDirection")) = false from rfl,
            show (("waveCheckFactor" == "waveA1Value")) = false from rfl,
            show (("waveCheckFactor" == "waveA2Value")) = false from rfl,
            show (("waveCheckFactor" == "waveB1Value")) = false from rfl,
            show (("waveCheckFactor" == "waveB2Value")) = false from rfl,
            show (("waveCheckFactor" == "waveCheckFactor")) = true from rfl]
            at hv
          simp only [Option.or] at hv
          refine ⟨_, (Option.some.inj hv).symm, ?_⟩
          intro row hrow
          rw [List.map_map] at hrow
          obtain ⟨e, _, hre⟩ := List.mem_map.1 hrow
          rw [← hre]
          dsimp only [Function.comp]
          rw [(redistribute_lens _ _ _).2.2.2.2.2.2 (by simp), freq64_length]
  · intro k hk hsome2
    fin_cases hk
    · rw [List.lookup_append]
      simp [List.lookup]
    · rw [List.lookup_append]
      simp [List.lookup]
    · rw [List.lookup_append]
      simp [List.lookup]
    · rw [List.lookup_append]
      simp [List.lookup]
    · rw [List.lookup_append]
      simp [List.lookup]
    · rw [List.lookup_append]
      simp [List.lookup]
    · obtain ⟨c, hc⟩ := Option.isSome_iff_exists.1 hsome2
      rw [hc, List.lookup_append, if_pos (Option.isSome_some)]
      simp [List.lookup]

end CDIP

namespace CDIP

/-- Looking a key up after the spectral-variable replacement: spectral
keys take the redistributed value when one exists, everything else is
unchanged. -/
theorem lookup_replaceSpectralVars (d rd : Dict ℝ) (k : String) :
    List.lookup k (replaceSpectralVars d rd)
      = (List.lookup k d).map (fun v =>
          if k ∈ spectrumVars then
            match List.lookup k rd with
            | some w => w
            | none => v
          else v) := by
  induction d with
  | nil => rfl
  | cons kv tl ih =>
    obtain ⟨k1, v1⟩ := kv
    unfold replaceSpectralVars
    rw [List.map_cons]
    unfold replaceSpectralVars at ih
    by_cases hbeq : k = k1
    · subst hbeq
      have hb : (k == k) = true := by simp
      by_cases hsv : k ∈ spectrumVars
      · rw [if_pos hsv]
        cases hrd : List.lookup k rd with
        | some w =>
            simp only [List.lookup, hb, hrd, if_pos hsv]
            rfl
        | none =>
            simp only [List.lookup, hb, hrd, if_pos hsv]
            rfl
      · rw [if_neg hsv]
        simp only [List.lookup, hb, if_neg hsv]
        rfl
    · have hb : (k == k1) = false := by simp [hbeq]
      have hhead : (if k1 ∈ spectrumVars then
          match List.lookup k1 rd with
          | some w => (k1, w)
          | none => (k1, v1)
        else (k1, v1)).1 = k1 := by
        split_ifs
        · cases List.lookup k1 rd <;> rfl
        · rfl
      rcases hif : (if k1 ∈ spectrumVars then
          match List.lookup k1 rd with
          | some w => (k1, w)
          | none => (k1, v1)
        else (k1, v1)) with ⟨ka, va⟩
      have hka : ka = k1 := by rw [← hhead, hif]
      rw [hif]
      simp only [List.lookup, hka, hb, ih]

/-- The concatenation step succeeds on a duplicate-free key list whose
every key is present on at least one side and rank-compatible when on
both, and the result's entry at each key concatenates the two sides in
(older, newer) order or copies the single side that holds it. -/
theorem buildConcat_spec (e1 e2 : Dict ℝ) (ks : List String) (hnd : ks.Nodup)
    (hk : ∀ k ∈ ks,
      (List.lookup k e1).isSome = true ∨ (List.lookup k e2).isSome = true)
    (hcompat : ∀ k ∈ ks, ∀ v1 v2, List.lookup k e1 = some v1 →
      List.lookup k e2 = some v2 → (concatVal v1 v2).isSome = true) :
    ∃ r, buildConcat e1 e2 ks = some r ∧
      (∀ k v, List.lookup k r = some v → k ∈ ks) ∧
      (∀ k ∈ ks,
        (∀ v1 v2, List.lookup k e1 = some v1 → List.lookup k e2 = some v2 →
          List.lookup k r = concatVal v1 v2) ∧
        (∀ v1, List.lookup k e1 = some v1 → List.lookup k e2 = none →
          List.lookup k r = some v1) ∧
        (∀ v2, List.lookup k e1 = none → List.lookup k e2 = some v2 →
          List.lookup k r = some v2)) := by
  induction ks with
  | nil =>
    refine ⟨[], rfl, ?_, by simp⟩
    intro k v h
    simp [List.lookup] at h
  | cons k0 ks ih =>
    rw [List.nodup_cons] at hnd
    obtain ⟨r', hr', hdom, hspec⟩ := ih hnd.2
      (fun k hk' => hk k (List.mem_cons_of_mem _ hk'))
      (fun k hk' => hcompat k (List.mem_cons_of_mem _ hk'))
    have hk0 := hk k0 (List.mem_cons_self _ _)
    have hstep : ∀ (w : Val ℝ),
        (∀ k v, List.lookup k ((k0, w) :: r') = some v → k ∈ k0 :: ks) ∧
        (∀ k ∈ ks, List.lookup k ((k0, w) :: r') = List.lookup k r') := by
      intro w
      constructor
      · intro k v h
        by_cases hbeq : k = k0
        · exact hbeq ▸ List.mem_cons_self _ _
        · have hb : (k == k0) = false := by simp [hbeq]
          simp only [List.lookup, hb] at h
          exact List.mem_cons_of_mem _ (hdom k v h)
      · intro k hkks
        have hbeq : k ≠ k0 := fun he => hnd.1 (he ▸ hkks)
        have hb : (k == k0) = false := by simp [hbeq]
          
        simp only [List.lookup, hb]
    cases h1 : List.lookup k0 e1 with
    | none =>
      cases h2 : List.lookup k0 e2 with
      | none =>
        rw [h1, h2] at hk0
        simp at hk0
      | some v2 =>
        refine ⟨(k0, v2) :: r', ?_, (hstep v2).1, ?_⟩
        · unfold buildConcat
          rw [hr']
          dsimp only
          rw [h1, h2]
        · intro k hkm
          rcases List.mem_cons.1 hkm with rfl | hkks
          · have hb : (k == k) = true := by simp
            refine ⟨?_, ?_, ?_⟩
            · intro w1 w2 hw1 _
              rw [h1] at hw1
              cases hw1
            · intro w1 hw1 _
              rw [h1] at hw1
              cases hw1
            · intro w2 _ hw2
              rw [h2] at hw2
              simp only [List.lookup, hb]
              exact congrArg some (Option.some.inj hw2)
          · rw [(hstep v2).2 k hkks]
            exact hspec k hkks
    | some v1 =>
      cases h2 : List.lookup k0 e2 with
      | none =>
        refine ⟨(k0, v1) :: r', ?_, (hstep v1).1, ?_⟩
        · unfold buildConcat
          rw [hr']
          dsimp only
          rw [h1, h2]
        · intro k hkm
          rcases List.mem_cons.1 hkm with rfl | hkks
          · have hb : (k == k) = true := by simp
            refine ⟨?_, ?_, ?_⟩
            · intro w1 w2 _ hw2
              rw [h2] at hw2
              cases hw2
            · intro w1 hw1 _
              rw [h1] at hw1
              simp only [List.lookup, hb]
              exact congrArg some (Option.some.inj hw1)
            · intro w2 hw2 _
              rw [h1] at hw2
              cases hw2
          · rw [(hstep v1).2 k hkks]
            exact hspec k hkks
      | some v2 =>
        have hcs := hcompat k0 (List.mem_cons_self _ _) v1 v2 h1 h2
        obtain ⟨w, hw⟩ := Option.isSome_iff_exists.1 hcs
        refine ⟨(k0, w) :: r', ?_, (hstep w).1, ?_⟩
        · unfold buildConcat
          rw [hr']
          dsimp only
          rw [h1, h2]
          dsimp only
          rw [hw]
          rfl
        · intro k hkm
          rcases List.mem_cons.1 hkm with rfl | hkks
          · have hb : (k == k) = true := by simp
            refine ⟨?_, ?_, ?_⟩
            · intro w1 w2 hw1 hw2
              rw [h1] at hw1
              rw [h2] at hw2
              obtain rfl : v1 = w1 := Option.some.inj hw1
              obtain rfl : v2 = w2 := Option.some.inj hw2
              simp only [List.lookup, hb]
              exact hw.symm
            · intro w1 _ hw2
              rw [h2] at hw2
              cases hw2
            · intro w2 hw2 _
              rw [h1] at hw2
              cases hw2
          · rw [(hstep w).2 k hkks]
            exact hspec k hkks

end CDIP

namespace CDIP

/-- A successful lookup means the key is among the dictionary's keys. -/
theorem lookup_some_mem_keys {β : Type} {l : List (String × β)} {k : String}
    {v : β} (h : List.lookup k l = some v) : k ∈ l.map Prod.fst := by
  induction l with
  | nil => simp [List.lookup] at h
  | cons kv tl ih =>
    obtain ⟨k1, v1⟩ := kv
    by_cases hbeq : k = k1
    · subst hbeq
      exact List.mem_cons_self _ _
    · have hb : (k == k1) = false := by simp [hbeq]
      simp only [List.lookup, hb] at h
      exact List.mem_cons_of_mem _ (ih h)

/-- A key among the dictionary's keys looks up successfully. -/
theorem mem_keys_lookup_isSome {β : Type} {l : List (String × β)} {k : String}
    (h : k ∈ l.map Prod.fst) : (List.lookup k l).isSome = true := by
  induction l with
  | nil => simp at h
  | cons kv tl ih =>
    obtain ⟨k1, v1⟩ := kv
    by_cases hbeq : k = k1
    · subst hbeq
      have hb : (k == k) = true := by simp
      simp [List.lookup, hb]
    · have hb : (k == k1) = false := by simp [hbeq]
      simp only [List.lookup, hb]
      apply ih
      simp only [List.map_cons] at h
      rcases List.mem_cons.1 h with he | hm
      · exact absurd he hbeq
      · exact hm

/-- A key absent from the dictionary's keys looks up to `none`. -/
theorem lookup_none_of_not_mem {β : Type} {l : List (String × β)} {k : String}
    (h : k ∉ l.map Prod.fst) : List.lookup k l = none := by
  cases hl : List.lookup k l with
  | none => rfl
  | some v => exact absurd (lookup_some_mem_keys hl) h

/-- Concatenation of rank-matched values succeeds. -/
theorem concatVal_isSome {v1 v2 : Val ℝ} (h : v1.isOne = v2.isOne) :
    (concatVal v1 v2).isSome = true := by
  cases v1 <;> cases v2 <;> simp [Val.isOne] at h ⊢ <;> simp [concatVal]

end CDIP

namespace CDIP

/-- C3: aggregating a 100-band record set (older side) with a 64-band
record set (newer side) redistributes the 100-band side to the 64-band
layout before concatenating even when the forced-normalisation flag is
off, whichever spectral variable the arbitrary set-iteration probe
`next(iter(svars))` happens to pick (here: for every legal pick): every
spectral variable of the output is 2-dimensional with every row of
length 64, non-spectral keys present in both sides are concatenated in
(older, newer) order, and keys present in only one side are taken from
that side. Both sides are assumed to carry the same spectral
variables (non-empty 2-d record sets, 100-band on the older side,
64-band on the newer side). -/
theorem aggregate_band_normalisation (d1 d2 : Dict ℝ)
    (t1 : List ℝ) (m1 m2 : List (List ℝ))
    (hT1 : List.lookup "waveTime" d1 = some (Val.one t1))
    (hED1 : List.lookup "waveEnergyDensity" d1 = some (Val.two m1))
    (hED2 : List.lookup "waveEnergyDensity" d2 = some (Val.two m2))
    (hMD1 : ∃ m, List.lookup "waveMeanDirection" d1 = some (Val.two m))
    (hA11 : ∃ m, List.lookup "waveA1Value" d1 = some (Val.two m))
    (hB11 : ∃ m, List.lookup "waveB1Value" d1 = some (Val.two m))
    (hA21 : ∃ m, List.lookup "waveA2Value" d1 = some (Val.two m))
    (hB21 : ∃ m, List.lookup "waveB2Value" d1 = some (Val.two m))
    (hs1 : ∀ k ∈ spectrumVars, ∀ v, List.lookup k d1 = some v →
      ∃ m, v = Val.two m ∧ m ≠ [] ∧ ∀ row ∈ m, row.length = 100)
    (hs2 : ∀ k ∈ spectrumVars, ∀ v, List.lookup k d2 = some v →
      ∃ m, v = Val.two m ∧ m ≠ [] ∧ ∀ row ∈ m, row.length = 64)
    (hboth : ∀ k ∈ spectrumVars, k ∈ unionKeys d1 d2 →
      (List.lookup k d1).isSome = true ∧ (List.lookup k d2).isSome = true)
    (hrank : ∀ k, k ∉ spectrumVars → ∀ v1 v2, List.lookup k d1 = some v1 →
      List.lookup k d2 = some v2 → v1.isOne = v2.isOne)
    (hnd1 : (d1.map Prod.fst).Nodup) (hnd2 : (d2.map Prod.fst).Nodup) :
    ∀ pick ∈ presentSpectrumVars d1 d2,
      ∃ r, aggregateDicts false d1 d2 pick = some r ∧
        (∀ k ∈ spectrumVars, ∀ v, List.lookup k r = some v →
          ∃ m, v = Val.two m ∧ ∀ row ∈ m, row.length = 64) ∧
        (∀ k, k ∉ spectrumVars → ∀ v1 v2, List.lookup k d1 = some v1 →
          List.lookup k d2 = some v2 →
          ∃ v, List.lookup k r = some v ∧ concatVal v1 v2 = some v) ∧
        (∀ k, k ∉ spectrumVars → ∀ v1, List.lookup k d1 = some v1 →
          List.lookup k d2 = none → List.lookup k r = some v1) ∧
        (∀ k v2, List.lookup k d1 = none → List.lookup k d2 = some v2 →
          List.lookup k r = some v2) := by
  intro pick hpick
  have hpick' := hpick
  unfold presentSpectrumVars at hpick'
  have hkp : pick ∈ spectrumVars := (List.mem_filter.1 hpick').1
  -- the energy-density record sets are non-empty with the stated widths
  obtain ⟨mm, hmm, hm1ne, hm1len⟩ :=
    hs1 "waveEnergyDensity" (by simp [spectrumVars]) _ hED1
  obtain rfl : m1 = mm := by injection hmm
  obtain ⟨mm2, hmm2, hm2ne, hm2len⟩ :=
    hs2 "waveEnergyDensity" (by simp [spectrumVars]) _ hED2
  obtain rfl : m2 = mm2 := by injection hmm2
  -- any spectral variable held by a side has that side's inner dimension
  have hshape1 : ∀ k ∈ spectrumVars, (List.lookup k d1).isSome = true →
      dictShape1 d1 k = some 100 := by
    intro k hk hsome
    obtain ⟨v, hv⟩ := Option.isSome_iff_exists.1 hsome
    obtain ⟨m, rfl, hne, hrows⟩ := hs1 k hk v hv
    unfold dictShape1
    rw [hv]
    obtain ⟨r0, rest, rfl⟩ : ∃ r0 rest, m = r0 :: rest := by
      cases m with
      | nil => exact absurd rfl hne
      | cons a b => exact ⟨a, b, rfl⟩
    simp [hrows _ (List.mem_cons_self _ _)]
  have hshape2 : ∀ k ∈ spectrumVars, (List.lookup k d2).isSome = true →
      dictShape1 d2 k = some 64 := by
    intro k hk hsome
    obtain ⟨v, hv⟩ := Option.isSome_iff_exists.1 hsome
    obtain ⟨m, rfl, hne, hrows⟩ := hs2 k hk v hv
    unfold dictShape1
    rw [hv]
    obtain ⟨r0, rest, rfl⟩ : ∃ r0 rest, m = r0 :: rest := by
      cases m with
      | nil => exact absurd rfl hne
      | cons a b => exact ⟨a, b, rfl⟩
    simp [hrows _ (List.mem_cons_self _ _)]
  -- the picked probe key is present on both sides
  have hup : pick ∈ unionKeys d1 d2 := by
    have := (List.mem_filter.1 hpick').2
    simpa using this
  obtain ⟨h1s, h2s⟩ := hboth pick hkp hup
  -- the redistributed 100-band side
  obtain ⟨rd, hrd, hrdrows, hrdcover⟩ := redistributeDictTo64_spec d1 t1 m1
    (by unfold getOne; rw [hT1]) (by unfold getTwo; rw [hED1])
    (by obtain ⟨m, hm⟩ := hMD1; unfold getTwo; rw [hm]; rfl)
    (by obtain ⟨m, hm⟩ := hA11; unfold getTwo; rw [hm]; rfl)
    (by obtain ⟨m, hm⟩ := hB11; unfold getTwo; rw [hm]; rfl)
    (by obtain ⟨m, hm⟩ := hA21; unfold getTwo; rw [hm]; rfl)
    (by obtain ⟨m, hm⟩ := hB21; unfold getTwo; rw [hm]; rfl)
    (by
      obtain ⟨r0, rest, rfl⟩ : ∃ r0 rest, m1 = r0 :: rest := by
        cases m1 with
        | nil => exact absurd rfl hm1ne
        | cons a b => exact ⟨a, b, rfl⟩
      rw [show ((r0 :: rest).headD []).length = 100 from
        hm1len _ (List.mem_cons_self _ _), whichSpecLayout_100]
      rfl)
  have hstep1 : aggregateStep1 false d1 d2 pick
      = some (replaceSpectralVars d1 rd, d2) := by
    unfold aggregateStep1
    rw [hshape1 pick hkp h1s, hshape2 pick hkp h2s]
    dsimp only
    rw [if_pos (by norm_num)]
    rw [if_pos rfl, if_neg (by norm_num), hrd]
    rfl
  have hagg : aggregateDicts false d1 d2 pick
      = buildConcat (replaceSpectralVars d1 rd) d2 (unionKeys d1 d2) := by
    unfold aggregateDicts
    rw [if_neg (List.ne_nil_of_mem hpick), hstep1]
  -- facts about the replaced side
  have he1 : ∀ k, List.lookup k (replaceSpectralVars d1 rd)
      = (List.lookup k d1).map (fun v =>
          if k ∈ spectrumVars then
            match List.lookup k rd with
            | some w => w
            | none => v
          else v) := fun k => lookup_replaceSpectralVars d1 rd k
  have he1spec : ∀ k ∈ spectrumVars, ∀ v1, List.lookup k d1 = some v1 →
      ∃ w m, List.lookup k (replaceSpectralVars d1 rd) = some w ∧
        List.lookup k rd = some w ∧ w = Val.two m ∧
        ∀ row ∈ m, row.length = 64 := by
    intro k hk v1 hv1
    have hg2 : (getTwo d1 k).isSome = true := by
      obtain ⟨m, hm, _, _⟩ := hs1 k hk v1 hv1
      unfold getTwo
      rw [hv1, hm]
      rfl
    obtain ⟨w, hw⟩ := Option.isSome_iff_exists.1 (hrdcover k hk hg2)
    obtain ⟨m, hm, hrows⟩ := hrdrows k hk w hw
    refine ⟨w, m, ?_, hw, hm, hrows⟩
    rw [he1 k, hv1]
    simp only [if_pos hk, hw]
    rfl
  have he1non : ∀ k, k ∉ spectrumVars →
      List.lookup k (replaceSpectralVars d1 rd) = List.lookup k d1 := by
    intro k hk
    rw [he1 k]
    cases List.lookup k d1 with
    | none => rfl
    | some v =>
      simp only [if_neg hk]
      rfl
  -- nodup union keys
  have hndu : (unionKeys d1 d2).Nodup := by
    unfold unionKeys
    rw [List.nodup_append]
    refine ⟨hnd1, List.Nodup.filter _ hnd2, ?_⟩
    intro k hk1 hk2
    have := (List.mem_filter.1 hk2).2
    simp only [decide_eq_true_eq] at this
    exact this hk1
  -- coverage and compatibility for buildConcat
  have hcov : ∀ k ∈ unionKeys d1 d2,
      (List.lookup k (replaceSpectralVars d1 rd)).isSome = true ∨
      (List.lookup k d2).isSome = true := by
    intro k hk
    rcases List.mem_append.1 hk with hk1 | hk2
    · left
      obtain ⟨v1, hv1⟩ := Option.isSome_iff_exists.1
        (mem_keys_lookup_isSome hk1)
      rw [he1 k, hv1]
      rfl
    · right
      exact mem_keys_lookup_isSome (List.mem_filter.1 hk2).1
  have hcompat : ∀ k ∈ unionKeys d1 d2, ∀ w1 v2,
      List.lookup k (replaceSpectralVars d1 rd) = some w1 →
      List.lookup k d2 = some v2 → (concatVal w1 v2).isSome = true := by
    intro k _ w1 v2 hw1 hv2
    by_cases hk : k ∈ spectrumVars
    · obtain ⟨m2, hm2, _, _⟩ := hs2 k hk v2 hv2
      have hv1 : ∃ v1, List.lookup k d1 = some v1 := by
        rw [he1 k] at hw1
        cases hl : List.lookup k d1 with
        | none => rw [hl] at hw1; cases hw1
        | some v1 => exact ⟨v1, rfl⟩
      obtain ⟨v1, hv1⟩ := hv1
      obtain ⟨w, m, hwe, _, hm, _⟩ := he1spec k hk v1 hv1
      rw [hwe] at hw1
      obtain rfl : w = w1 := Option.some.inj hw1
      rw [hm, hm2]
      rfl
    · rw [he1non k hk] at hw1
      exact concatVal_isSome (hrank k hk w1 v2 hw1 hv2)
  obtain ⟨r, hr, hdom, hspec⟩ := buildConcat_spec (replaceSpectralVars d1 rd)
    d2 (unionKeys d1 d2) hndu hcov hcompat
  refine ⟨r, by rw [hagg, hr], ?_, ?_, ?_, ?_⟩
  · -- every spectral variable of the output has 64-entry rows
    intro k hk v hv
    have hku : k ∈ unionKeys d1 d2 := hdom k v hv
    have hsp := hspec k hku
    cases h1 : List.lookup k d1 with
    | some v1 =>
      obtain ⟨w, m, hwe, _, hm, hrows⟩ := he1spec k hk v1 h1
      cases h2 : List.lookup k d2 with
      | some v2 =>
        obtain ⟨m2, hm2, _, hrows2⟩ := hs2 k hk v2 h2
        have := hsp.1 w v2 hwe h2
        rw [hv] at this
        subst hm
        subst hm2
        refine ⟨m ++ m2, ?_, ?_⟩
        · have : some v = some (Val.two (m ++ m2)) := by
            rw [this]; rfl
          exact Option.some.inj this
        · intro row hrow
          rcases List.mem_append.1 hrow with h | h
          · exact hrows row h
          · exact hrows2 row h
      | none =>
        have := hsp.2.1 w hwe h2
        rw [hv] at this
        obtain rfl : w = v := Option.some.inj this.symm
        exact ⟨m, hm, hrows⟩
    | none =>
      have he1n : List.lookup k (replaceSpectralVars d1 rd) = none := by
        rw [he1 k, h1]
        rfl
      cases h2 : List.lookup k d2 with
      | some v2 =>
        have := hsp.2.2 v2 he1n h2
        rw [hv] at this
        have hv2v : v2 = v := Option.some.inj this.symm
        rw [← hv2v]
        obtain ⟨m2, hm2, _, hrows2⟩ := hs2 k hk v2 h2
        exact ⟨m2, hm2, hrows2⟩
      | none =>
        rcases hcov k hku with hc | hc
        · rw [he1n] at hc; cases hc
        · rw [h2] at hc; cases hc
  · -- keys in both sides, non-spectral: concatenated (older, newer)
    intro k hk v1 v2 h1 h2
    have hku : k ∈ unionKeys d1 d2 :=
      List.mem_append_left _ (lookup_some_mem_keys h1)
    have he1k : List.lookup k (replaceSpectralVars d1 rd) = some v1 := by
      rw [he1non k hk, h1]
    obtain ⟨w, hw⟩ := Option.isSome_iff_exists.1
      (concatVal_isSome (hrank k hk v1 v2 h1 h2))
    refine ⟨w, ?_, hw⟩
    rw [(hspec k hku).1 v1 v2 he1k h2, hw]
  · -- keys only in the older side, non-spectral
    intro k hk v1 h1 h2
    have hku : k ∈ unionKeys d1 d2 :=
      List.mem_append_left _ (lookup_some_mem_keys h1)
    have he1k : List.lookup k (replaceSpectralVars d1 rd) = some v1 := by
      rw [he1non k hk, h1]
    exact (hspec k hku).2.1 v1 he1k h2
  · -- keys only in the newer side
    intro k v2 h1 h2
    have hk2 : k ∈ d2.map Prod.fst := lookup_some_mem_keys h2
    have hk1 : k ∉ d1.map Prod.fst := by
      intro hmem
      have := mem_keys_lookup_isSome (l := d1) hmem
      rw [h1] at this
      cases this
    have hku : k ∈ unionKeys d1 d2 := by
      apply List.mem_append_right
      exact List.mem_filter.2 ⟨hk2, by simpa using hk1⟩
    have he1n : List.lookup k (replaceSpectralVars d1 rd) = none := by
      rw [he1 k, h1]
      rfl
    exact (hspec k hku).2.2 v2 he1n h2

end CDIP

namespace CDIP

/-- One-record 100-band dictionary exercising the aggregation model. -/
noncomputable def d1W : Dict ℝ :=
  [("waveTime", Val.one [0]),
   ("waveEnergyDensity", Val.two [List.replicate 100 1]),
   ("waveMeanDirection", Val.two [List.replicate 100 0]),
   ("waveA1Value", Val.two [List.replicate 100 0]),
   ("waveB1Value", Val.two [List.replicate 100 0]),
   ("waveA2Value", Val.two [List.replicate 100 0]),
   ("waveB2Value", Val.two [List.replicate 100 0])]

/-- One-record 64-band dictionary exercising the aggregation model,
carrying the same spectral variables as the 100-band side. -/
noncomputable def d2W : Dict ℝ :=
  [("waveTime", Val.one [1]),
   ("waveEnergyDensity", Val.two [List.replicate 64 1]),
   ("waveMeanDirection", Val.two [List.replicate 64 0]),
   ("waveA1Value", Val.two [List.replicate 64 0]),
   ("waveB1Value", Val.two [List.replicate 64 0]),
   ("waveA2Value", Val.two [List.replicate 64 0]),
   ("waveB2Value", Val.two [List.replicate 64 0])]

/-- Witness for C3 at a concrete pair of dictionaries: one 100-band
record aggregated with one 64-band record yields a dictionary whose
spectral variables all have 64-entry rows and whose shared non-spectral
key is concatenated oldest-first - here under the probe pick
`waveMeanDirection`, a variable the set iteration may well hand the
code instead of the energy density. -/
theorem aggregate_band_normalisation_witness :
    ∃ r, aggregateDicts false d1W d2W "waveMeanDirection" = some r ∧
      (∀ k ∈ spectrumVars, ∀ v, List.lookup k r = some v →
        ∃ m, v = Val.two m ∧ ∀ row ∈ m, row.length = 64) ∧
      (∀ k, k ∉ spectrumVars → ∀ v1 v2, List.lookup k d1W = some v1 →
        List.lookup k d2W = some v2 →
        ∃ v, List.lookup k r = some v ∧ concatVal v1 v2 = some v) ∧
      (∀ k, k ∉ spectrumVars → ∀ v1, List.lookup k d1W = some v1 →
        List.lookup k d2W = none → List.lookup k r = some v1) ∧
      (∀ k v2, List.lookup k d1W = none → List.lookup k d2W = some v2 →
        List.lookup k r = some v2) :=
  aggregate_band_normalisation d1W d2W [0] [List.replicate 100 1]
    [List.replicate 64 1]
    rfl rfl rfl
    ⟨[List.replicate 100 0], rfl⟩ ⟨[List.replicate 100 0], rfl⟩
    ⟨[List.replicate 100 0], rfl⟩ ⟨[List.replicate 100 0], rfl⟩
    ⟨[List.replicate 100 0], rfl⟩
    (by
      intro k hk v hv
      fin_cases hk
      · rw [show List.lookup "waveEnergyDensity" d1W
            = some (Val.two [List.replicate 100 (1:ℝ)]) from rfl] at hv
        obtain rfl := Option.some.inj hv
        refine ⟨_, rfl, by simp, ?_⟩
        intro row hrow
        simp only [List.mem_singleton] at hrow
        simp [hrow]
      · rw [show List.lookup "waveMeanDirection" d1W
            = some (Val.two [List.replicate 100 (0:ℝ)]) from rfl] at hv
        obtain rfl := Option.some.inj hv
        refine ⟨_, rfl, by simp, ?_⟩
        intro row hrow
        simp only [List.mem_singleton] at hrow
        simp [hrow]
      · rw [show List.lookup "waveA1Value" d1W
            = some (Val.two [List.replicate 100 (0:ℝ)]) from rfl] at hv
        obtain rfl := Option.some.inj hv
        refine ⟨_, rfl, by simp, ?_⟩
        intro row hrow
        simp only [List.mem_singleton] at hrow
        simp [hrow]
      · rw [show List.lookup "waveB1Value" d1W
            = some (Val.two [List.replicate 100 (0:ℝ)]) from rfl] at hv
        obtain rfl := Option.some.inj hv
        refine ⟨_, rfl, by simp, ?_⟩
        intro row hrow
        simp only [List.mem_singleton] at hrow
        simp [hrow]
      · rw [show List.lookup "waveA2Value" d1W
            = some (Val.two [List.replicate 100 (0:ℝ)]) from rfl] at hv
        obtain rfl := Option.some.inj hv
        refine ⟨_, rfl, by simp, ?_⟩
        intro row hrow
        simp only [List.mem_singleton] at hrow
        simp [hrow]
      · rw [show List.lookup "waveB2Value" d1W
            = some (Val.two [List.replicate 100 (0:ℝ)]) from rfl] at hv
        obtain rfl := Option.some.inj hv
        refine ⟨_, rfl, by simp, ?_⟩
        intro row hrow
        simp only [List.mem_singleton] at hrow
        simp [hrow]
      · rw [show List.lookup "waveCheckFactor" d1W = none from rfl] at hv
        cases hv)
    (by
      intro k hk v hv
      fin_cases hk
      · rw [show List.lookup "waveEnergyDensity" d2W
            = some (Val.two [List.replicate 64 (1:ℝ)]) from rfl] at hv
        obtain rfl := Option.some.inj hv
        refine ⟨_, rfl, by simp, ?_⟩
        intro row hrow
        simp only [List.mem_singleton] at hrow
        simp [hrow]
      · rw [show List.lookup "waveMeanDirection" d2W
            = some (Val.two [List.replicate 64 (0:ℝ)]) from rfl] at hv
        obtain rfl := Option.some.inj hv
        refine ⟨_, rfl, by simp, ?_⟩
        intro row hrow
        simp only [List.mem_singleton] at hrow
        simp [hrow]
      · rw [show List.lookup "waveA1Value" d2W
            = some (Val.two [List.replicate 64 (0:ℝ)]) from rfl] at hv
        obtain rfl := Option.some.inj hv
        refine ⟨_, rfl, by simp, ?_⟩
        intro row hrow
        simp only [List.mem_singleton] at hrow
        simp [hrow]
      · rw [show List.lookup "waveB1Value" d2W
            = some (Val.two [List.replicate 64 (0:ℝ)]) from rfl] at hv
        obtain rfl := Option.some.inj hv
        refine ⟨_, rfl, by simp, ?_⟩
        intro row hrow
        simp only [List.mem_singleton] at hrow
        simp [hrow]
      · rw [show List.lookup "waveA2Value" d2W
            = some (Val.two [List.replicate 64 (0:ℝ)]) from rfl] at hv
        obtain rfl := Option.some.inj hv
        refine ⟨_, rfl, by simp, ?_⟩
        intro row hrow
        simp only [List.mem_singleton] at hrow
        simp [hrow]
      · rw [show List.lookup "waveB2Value" d2W
            = some (Val.two [List.replicate 64 (0:ℝ)]) from rfl] at hv
        obtain rfl := Option.some.inj hv
        refine ⟨_, rfl, by simp, ?_⟩
        intro row hrow
        simp only [List.mem_singleton] at hrow
        simp [hrow]
      · rw [show List.lookup "waveCheckFactor" d2W = none from rfl] at hv
        cases hv)
    (by decide)
    (by
      intro k hk v1 v2 h1 h2
      have hmem := lookup_some_mem_keys h1
      have hcases : k = "waveTime" ∨ k = "waveEnergyDensity" ∨
          k = "waveMeanDirection" ∨ k = "waveA1Value" ∨ k = "waveB1Value" ∨
          k = "waveA2Value" ∨ k = "waveB2Value" := by
        simpa [d1W] using hmem
      rcases hcases with rfl | rfl | rfl | rfl | rfl | rfl | rfl
      · rw [show List.lookup "waveTime" d1W
            = some (Val.one [(0:ℝ)]) from rfl] at h1
        rw [show List.lookup "waveTime" d2W
            = some (Val.one [(1:ℝ)]) from rfl] at h2
        obtain rfl := Option.some.inj h1
        obtain rfl := Option.some.inj h2
        rfl
      all_goals exact absurd (by simp [spectrumVars]) hk)
    (by decide) (by decide)
    "waveMeanDirection" (by decide)
end CDIP

namespace CDIP

/-- One xyz (displacement) netCDF dataset: start time, sample rate,
optional filter delay (`none` models the masked fill value of Mark I
buoys) and the three displacement arrays. -/
structure XyzNc where
  t0 : ℚ
  sampleRate : ℚ
  filterDelay : Option ℚ
  xDisp : List ℚ
  yDisp : List ℚ
  zDisp : List ℚ

/-- `d = 0 if d[0] is np.ma.masked else d[0]` (cdipnc.py). -/
def xyzFilterD (env : XyzNc) : ℚ :=
  match env.filterDelay with
  | none => 0
  | some d => d

/-- Model of `Archive.__get_idx_from_timestamp`:
`int(round(r * (timestamp - t0 + d), 0))`. -/
def idxFromTimestamp (env : XyzNc) (ts : ℚ) : ℤ :=
  pyRound (env.sampleRate * (ts - env.t0 + xyzFilterD env))

/-- Model of `Archive.__make_xyzTime`: `t0 - d + i / r` for
`i in range(start_idx, end_idx)`. -/
def makeXyzTime (env : XyzNc) (s e : ℤ) : List ℚ :=
  (List.range (e - s).toNat).map
    (fun j => env.t0 - xyzFilterD env + ((s + (j : ℤ) : ℤ) : ℚ) / env.sampleRate)

/-- `self.get_var(vname)` restricted to the displacement variables. -/
def xyzVar (env : XyzNc) (name : String) : List ℚ :=
  if name == "xyzXDisplacement" then env.xDisp
  else if name == "xyzYDisplacement" then env.yDisp
  else if name == "xyzZDisplacement" then env.zDisp
  else []

/-- The xyz branch of `Archive.get_request` (cdipnc.py lines 984-1012):
expand the `xyzData` shorthand, compute the index window from the
timestamps, return `{}` unless it overlaps `[0, len(z)-1]`, clamp it,
then emit the computed `xyzTime` and the sliced displacement arrays.
Note that neither `pub_set` nor `apply_mask` occurs in this branch. -/
def archiveXyzBody (env : XyzNc) (vrs0 : List String)
    (startStamp endStamp : ℚ) : Dict ℚ :=
  let vrs := if vrs0.headD "" == "xyzData" then
      ["xyzXDisplacement", "xyzYDisplacement", "xyzZDisplacement"]
    else vrs0
  let si := idxFromTimestamp env startStamp
  let ei := idxFromTimestamp env endStamp
  let z := env.zDisp
  if Timespan.overlap ⟨si, ei⟩ ⟨0, (z.length : ℤ) - 1⟩ = false then []
  else
    let s := max 0 si
    let e := min ((z.length : ℤ) - 1) ei
    ("xyzTime", Val.one (makeXyzTime env s e)) ::
      vrs.map (fun v => (v, Val.one (pySlice (xyzVar env v) s.toNat e.toNat)))

/-- Model of `Archive.get_request`: when the first requested variable is
not of the `xyz` family, delegate to the base-class `get_request`
(which slices by time and may apply the quality mask); otherwise run the
xyz branch. -/
def archiveGetRequest (ds : NcDataset) (env : XyzNc) (vrs : List String)
    (startStamp endStamp : ℚ) (pubSet : String) (applyMask : Bool) : Dict ℚ :=
  if (getVarPref (vrs.headD "") == "xyz") = false then
    getRequest ds vrs startStamp endStamp pubSet applyMask
  else
    archiveXyzBody env vrs startStamp endStamp

/-- Concrete time-dimension dataset on which the base-class read path
demonstrably reacts to the quality parameters. -/
def dsContrast : NcDataset :=
  ⟨"waveTime", [0, 1], [("waveHs", Val.one [5, 6])],
    some ("waveFlagPrimary", [1, 4])⟩

/-- An xyz dataset for the witness. -/
def envW : XyzNc :=
  ⟨0, 1, some 0, [1, 2], [3, 4], [5, 6]⟩

end CDIP

namespace CDIP

/-- C10: for every displacement (xyz) request the returned dictionary is
identical for every value of the requested quality set and of the
apply-mask flag - the xyz read path computes no quality mask - whereas
the time-dimension read path does react to the apply-mask flag on a
concrete dataset carrying a flagged record. -/
theorem xyz_request_quality_noninterference :
    (∀ (ds : NcDataset) (env : XyzNc) (vrs : List String) (ss es : ℚ)
      (p1 p2 : String) (b1 b2 : Bool),
      getVarPref (vrs.headD "") = "xyz" →
      archiveGetRequest ds env vrs ss es p1 b1
        = archiveGetRequest ds env vrs ss es p2 b2) ∧
    getRequest dsContrast ["waveHs"] 0 1 "public" true
      ≠ getRequest dsContrast ["waveHs"] 0 1 "public" false := by
  constructor
  · intro ds env vrs ss es p1 p2 b1 b2 h
    unfold archiveGetRequest
    rw [h]
    rw [if_neg (by simp)]
    rw [if_neg (by simp)]
  · intro hEq
    have h1 : getRequest dsContrast ["waveHs"] 0 1 "public" true
        = [("waveTime", Val.one [0]), ("waveHs", Val.one [5])] := rfl
    have h2 : getRequest dsContrast ["waveHs"] 0 1 "public" false
        = [("waveTime", Val.one [0, 1]), ("waveHs", Val.one [5, 6])] := rfl
    rw [h1, h2] at hEq
    simp at hEq

/-- Witness for C10: a concrete `xyzData` request returns the same
dictionary under (public, masked) and (nonpub, unmasked). -/
theorem xyz_request_quality_noninterference_witness :
    archiveGetRequest dsContrast envW ["xyzData"] 0 1 "public" true
      = archiveGetRequest dsContrast envW ["xyzData"] 0 1 "nonpub" false :=
  xyz_request_quality_noninterference.1 dsContrast envW ["xyzData"] 0 1
    "public" "nonpub" true false rfl

end CDIP

namespace CDIP

/-- Real-valued twin of `pyRound` for the archive xyz index computation
reached through the merge path. -/
noncomputable def pyRoundR (q : ℝ) : ℤ :=
  let f := ⌊q⌋
  let frac := q - f
  if frac < 1/2 then f
  else if 1/2 < frac then f + 1
  else if Even f then f else f + 1

/-- One xyz netCDF source as seen by `__merge_xyz_request`:
`zDisp = none` models `get_var("xyzZDisplacement")` returning `None`
(file without xyz data). -/
structure XyzNcR where
  t0 : ℝ
  sampleRate : ℝ
  filterDelay : Option ℝ
  xDisp : List ℝ
  yDisp : List ℝ
  zDisp : Option (List ℝ)

/-- `d = 0 if d[0] is np.ma.masked else d[0]`. -/
noncomputable def xyzFilterDR (nc : XyzNcR) : ℝ :=
  match nc.filterDelay with
  | none => 0
  | some d => d

/-- Model of `Archive.get_xyz_timestamp`: `t0 - d + xyzIndex / r` when
`t0 and r and d >= 0` is truthy (floats are truthy iff nonzero),
`None` otherwise. -/
noncomputable def getXyzTimestamp (nc : XyzNcR) (i : ℤ) : Option ℝ :=
  let d := xyzFilterDR nc
  if nc.t0 ≠ 0 ∧ nc.sampleRate ≠ 0 ∧ d ≥ 0 then
    some (nc.t0 - d + (i : ℝ) / nc.sampleRate)
  else none

/-- `Archive.__get_idx_from_timestamp` over the reals. -/
noncomputable def idxFromTimestampR (nc : XyzNcR) (ts : ℝ) : ℤ :=
  pyRoundR (nc.sampleRate * (ts - nc.t0 + xyzFilterDR nc))

/-- `Archive.__make_xyzTime` over the reals. -/
noncomputable def makeXyzTimeR (nc : XyzNcR) (s e : ℤ) : List ℝ :=
  (List.range (e - s).toNat).map
    (fun j => nc.t0 - xyzFilterDR nc + ((s + (j : ℤ) : ℤ) : ℝ) / nc.sampleRate)

/-- `self.get_var(vname)` on the displacement variables, over the reals.
The merge path only reaches it when `zDisp` is present. -/
noncomputable def xyzVarR (nc : XyzNcR) (name : String) : List ℝ :=
  if name == "xyzXDisplacement" then nc.xDisp
  else if name == "xyzYDisplacement" then nc.yDisp
  else if name == "xyzZDisplacement" then nc.zDisp.getD []
  else []

/-- The xyz branch of `Archive.get_request` over the reals, as invoked
from `__merge_xyz_helper` (which has set `vrs`, the stamps, `pub_set`
and `apply_mask` on the source object; the branch reads only the first
three). -/
noncomputable def archiveXyzBodyR (nc : XyzNcR) (vrs0 : List String)
    (startStamp endStamp : ℝ) : Dict ℝ :=
  let vrs := if vrs0.headD "" == "xyzData" then
      ["xyzXDisplacement", "xyzYDisplacement", "xyzZDisplacement"]
    else vrs0
  let si := idxFromTimestampR nc startStamp
  let ei := idxFromTimestampR nc endStamp
  let z := nc.zDisp.getD []
  if Timespan.overlap ⟨si, ei⟩ ⟨0, (z.length : ℤ) - 1⟩ = false then []
  else
    let s := max 0 si
    let e := min ((z.length : ℤ) - 1) ei
    ("xyzTime", Val.one (makeXyzTimeR nc s e)) ::
      vrs.map (fun v => (v, Val.one (pySlice (xyzVarR nc v) s.toNat e.toNat)))

/-- The station-level state read by `__merge_xyz_request`: the realtime
xyz source (`none` when `RealtimeXY(stn).nc is None`, i.e. the file
cannot be opened), the archive source per deployment number (`none`
when that file cannot be opened), `max_deployments`, and the request
fields. `pub_set` and `apply_mask` are assigned onto each source by the
helper but the xyz read path ignores them. -/
structure XyzMergeEnv where
  rt : Option XyzNcR
  archives : Nat → Option XyzNcR
  maxDeployments : Nat
  vrs : List String
  startStamp : ℝ
  endStamp : ℝ
  pubSet : String
  applyMask : Bool

/-- Model of `StnData.__merge_xyz_helper` (stndata.py lines 355-378):
skip a source without xyz data or without computable timestamps
(returning `self.start_stamp` as the file stamp), otherwise aggregate
the source's `get_request` output into the running result when the
request timespan overlaps the file timespan, returning the file start
stamp either way. The two file timestamps are `None` together, so the
catch-all branch is the `start_stamp is None` early return. An error
models a Python exception escaping `__aggregate_dicts`; xyz
dictionaries hold no spectral variables, so the aggregation never
reads its probe pick and an empty pick is passed. -/
noncomputable def mergeXyzHelper (vrs : List String) (ss es : ℝ)
    (nc : XyzNcR) (reqTs : Timespan ℝ) (result : Dict ℝ) :
    Except String (Dict ℝ × ℝ) :=
  match nc.zDisp with
  | none => .ok (result, ss)
  | some z =>
    match getXyzTimestamp nc 0,
        getXyzTimestamp nc ((z.length : ℤ) - 1) with
    | some fileStart, some fileEnd =>
      if reqTs.overlap ⟨fileStart, fileEnd⟩ then
        match aggregateDicts false result (archiveXyzBodyR nc vrs ss es) "" with
        | none => .error "aggregate_dicts"
        | some r => .ok (r, fileStart)
      else .ok (result, fileStart)
    | _, _ => .ok (result, ss)

/-- The archive scan of `__merge_xyz_request`
(`for dep in range(1, self.max_deployments)`): stop at the first
deployment whose file cannot be opened, otherwise merge it and stop
early once the file start stamp passes the request end stamp. Returns
the result and whether any archive file was used. -/
noncomputable def mergeXyzLoop (vrs : List String) (ss es : ℝ)
    (env : XyzMergeEnv) (reqTs : Timespan ℝ) :
    List Nat → Dict ℝ → Bool → Except String (Dict ℝ × Bool)
  | [], result, archUsed => .ok (result, archUsed)
  | dep :: rest, result, archUsed =>
    match env.archives dep with
    | none => .ok (result, archUsed)
    | some ar =>
      match mergeXyzHelper vrs ss es ar reqTs result with
      | .error e => .error e
      | .ok (r, st) =>
        if st > es then .ok (r, true)
        else mergeXyzLoop vrs ss es env reqTs rest r true

/-- Model of `StnData.__merge_xyz_request` (stndata.py lines 405-438):
expand the `xyzData` shorthand, merge the realtime source if it opens,
then compare `self.start_stamp` against the local `start_stamp` - a
local that has only been assigned inside the `if rt.nc is not None:`
block, so the comparison raises `UnboundLocalError` when the realtime
file did not open (modelled by the unassigned-local `none` state) -
then scan the archive deployments and deduplicate when both a realtime
and an archive file contributed. -/
noncomputable def mergeXyzRequest (env : XyzMergeEnv) :
    Except String (Dict ℝ) :=
  let vrs := if env.vrs.headD "" == "xyzData" then
      ["xyzXDisplacement", "xyzYDisplacement", "xyzZDisplacement"]
    else env.vrs
  let reqTs : Timespan ℝ := ⟨env.startStamp, env.endStamp⟩
  match
    (match env.rt with
     | none => Except.ok ([], none, false)
     | some rtNc =>
       match mergeXyzHelper vrs env.startStamp env.endStamp rtNc reqTs [] with
       | .error e => .error e
       | .ok (r, st) => Except.ok (r, some st, true) :
      Except String (Dict ℝ × Option ℝ × Bool)) with
  | .error e => .error e
  | .ok (result, stOpt, rtUsed) =>
    match stOpt with
    | none =>
      .error "UnboundLocalError: local variable start_stamp referenced before assignment"
    | some st =>
      if env.startStamp > st then .ok result
      else
        match mergeXyzLoop vrs env.startStamp env.endStamp env reqTs
            (List.range' 1 (env.maxDeployments - 1)) result false with
        | .error e => .error e
        | .ok (result2, archUsed) =>
          if rtUsed && archUsed then
            match removeDuplicates result2 with
            | none => .error "remove_duplicates"
            | some r => .ok r
          else .ok result2

end CDIP

namespace CDIP

/-- C5: contrary to the skip-and-continue failure semantics, when the
realtime-xyz source cannot be opened (`rt.nc is None`), the merge
routine never reaches the archive scan: the guard
`if self.start_stamp > start_stamp` reads the local `start_stamp`,
which is only assigned inside the realtime branch, so the request
raises `UnboundLocalError` - whatever archive data is available. -/
theorem merge_xyz_unbound_local (env : XyzMergeEnv) (h : env.rt = none) :
    mergeXyzRequest env = .error
      "UnboundLocalError: local variable start_stamp referenced before assignment" := by
  unfold mergeXyzRequest
  rw [h]

/-- A station state whose realtime xyz file does not open while the
first archive deployment holds perfectly usable data. -/
noncomputable def envC5 : XyzMergeEnv :=
  { rt := none,
    archives := fun _ => some ⟨1, 1, some 0, [1, 2], [3, 4], some [5, 6]⟩,
    maxDeployments := 5,
    vrs := ["xyzData"],
    startStamp := 0,
    endStamp := 1,
    pubSet := "public",
    applyMask := true }

/-- Witness for C5: on a concrete station state with an unopenable
realtime file and openable archives, the merge raises instead of
returning the archive data. -/
theorem merge_xyz_unbound_local_witness :
    mergeXyzRequest envC5 = .error
      "UnboundLocalError: local variable start_stamp referenced before assignment" :=
  merge_xyz_unbound_local envC5 rfl

end CDIP
